import Mathlib

/-!
# esquerydsl: a shallow embedding of the query-DSL serializer

The Go package builds Elasticsearch query bodies from a `QueryDoc` tree and
serializes them through `encoding/json`.  This file embeds the package's
functions as Lean definitions and proves properties of them.

Conventions of the embedding:

* Go `string` is `String`; Go `int` (and `QueryType`, declared `type QueryType int`)
  is `Int`.  No arithmetic is performed on these integers, so no wrap-around
  can occur.
* A Go call either returns a value, returns a non-nil `error`, or panics.
  `Outcome` has one constructor for a value, one for a panic, and one for each of the two
  kinds of error: the package's own `QueryTypeErr`, and the errors of `encoding/json`.
* Pointers to documents (`*QueryDoc`) are `Option QueryDoc`: the model covers
  finite, acyclic trees.
* A value stored in an `interface{}` that is neither JSON-like data nor a `QueryDoc` is kept
  as the result `json.Marshal` gives for it (`GoValue.other`), so values that the encoder
  rejects, such as `math.NaN()`, are part of the model.
-/

namespace Esquerydsl

/-! ## Outcomes of a Go call -/

/-- `type QueryType int`: the enum of supported query kinds. -/
abbrev QueryType := Int

/-- `QueryTypeErr`: the custom error returned when stringifying an unsupported `QueryType`. -/
structure QueryTypeErr where
  typeVal : QueryType
  deriving DecidableEq, Repr

/-- Run-time panics that the package's code can raise. -/
inductive Panic where
  /-- An array index expression `a[i]` with `i` outside `0 ≤ i < len`. -/
  | indexOutOfRange (index : Int) (length : Nat)
  /-- A failed type assertion `x.(T)`; `want` names `T`. -/
  | interfaceConversion (want : String)
  deriving DecidableEq, Repr

/-- The errors that `encoding/json` returns for a value it cannot encode. -/
inductive JsonError where
  /-- `*json.UnsupportedTypeError`: a channel, a function or a complex number. -/
  | unsupportedType (typeName : String)
  /-- `*json.UnsupportedValueError`: a NaN or infinite float. -/
  | unsupportedValue (text : String)
  /-- An error returned by a `MarshalJSON` or `MarshalText` method defined outside the
  package. -/
  | marshaler (message : String)
  deriving DecidableEq, Repr

/-- The result of a Go call: a value, a returned error, or a panic.  The only error the
package creates is `QueryTypeErr`; `encoding/json` wraps it in a `MarshalerError` that
`errors.As` sees through, so the wrapping is not represented.  An error of `encoding/json`
itself is a `jsonError`. -/
inductive Outcome (α : Type) where
  | ok (a : α)
  | error (e : QueryTypeErr)
  | jsonError (e : JsonError)
  | panic (p : Panic)
  deriving DecidableEq, Repr

namespace Outcome

/-- Sequencing: the first error or panic aborts everything after it. -/
def bind {α β : Type} : Outcome α → (α → Outcome β) → Outcome β
  | ok a, f => f a
  | error e, _ => error e
  | jsonError e, _ => jsonError e
  | panic p, _ => panic p

/-- Apply a pure function to a returned value. -/
def map {α β : Type} (f : α → β) : Outcome α → Outcome β
  | ok a => ok (f a)
  | error e => error e
  | jsonError e => jsonError e
  | panic p => panic p

/-- True when the call returned a value. -/
def isOk {α : Type} : Outcome α → Bool
  | ok _ => true
  | _ => false

instance : Monad Outcome where
  pure := Outcome.ok
  bind := Outcome.bind

end Outcome

/-! ## `QueryType` and its string conversion

The constants are declared with `iota`, so they are the ordinals 0 to 7. -/

def Match : QueryType := 0
def Term : QueryType := 1
def Terms : QueryType := 2
def Wildcard : QueryType := 3
def Range : QueryType := 4
def Exists : QueryType := 5
def QueryString : QueryType := 6
def Nested : QueryType := 7

/-- The array literal `convs` inside `QueryType.String`. -/
def convs : List String :=
  ["match", "term", "terms", "wildcard", "range", "exists", "query_string", "nested"]

/-- The Go index expression `a[i]` on an array of strings: panics outside `0 ≤ i < len a`. -/
def indexString (a : List String) (i : Int) : Outcome String :=
  if i < 0 then .panic (.indexOutOfRange i a.length)
  else match a.get? i.toNat with
    | some s => .ok s
    | none => .panic (.indexOutOfRange i a.length)

/-- `func (qt QueryType) String() (string, error)`:
the guard is `int(qt) > len(convs)`, then `convs[qt]` is indexed. -/
def QueryType.String (qt : QueryType) : Outcome String :=
  if qt > (convs.length : Int) then .error { typeVal := qt }
  else indexString convs qt

/-! ## The `strings` functions used by the escaping helper

Texts are read as lists of characters.  The reserved keywords are ASCII, so matching them
character by character agrees with Go's byte-wise matching on valid UTF-8. -/

/-- `strings.HasPrefix(s, p)` on characters. -/
def hasPrefixChars : List Char → List Char → Bool
  | _, [] => true
  | [], _ :: _ => false
  | c :: cs, p :: ps => c == p && hasPrefixChars cs ps

/-- `strings.Contains(s, substr)` on characters: some suffix of `s` starts with `substr`. -/
def containsChars : List Char → List Char → Bool
  | [], sub => hasPrefixChars [] sub
  | c :: cs, sub => hasPrefixChars (c :: cs) sub || containsChars cs sub

/-- The loop of `strings.Replace(s, old, new, -1)` for a non-empty `old`: the leftmost
occurrence is replaced and the scan resumes right after it.  `skip` counts the characters of
the occurrence just replaced that are still to be stepped over. -/
def replaceScan (old new : List Char) : Nat → List Char → List Char
  | _, [] => []
  | skip + 1, _ :: cs => replaceScan old new skip cs
  | 0, c :: cs =>
      if hasPrefixChars (c :: cs) old then new ++ replaceScan old new (old.length - 1) cs
      else c :: replaceScan old new 0 cs

/-- `strings.ReplaceAll(s, old, new)` on characters.  `old == new` returns `s`; an empty `old`
matches before every character and at the end. -/
def replaceAllChars (s old new : List Char) : List Char :=
  if old = new then s
  else match old with
    | [] => new ++ s.flatMap (fun c => c :: new)
    | _ :: _ => replaceScan old new 0 s

/-- `strings.Contains(s, substr)`. -/
def stringsContains (s substr : String) : Bool := containsChars s.data substr.data

/-- `strings.ReplaceAll(s, old, new)`. -/
def stringsReplaceAll (s old new : String) : String :=
  String.mk (replaceAllChars s.data old.data new.data)

/-- The lower-case mappings of the code points above ASCII, as runs `(lo, hi, stride, delta)`:
each of the code points `lo`, `lo + stride`, ..., `hi` has the code point `delta` further on
as its lower case.  This is the `LowerCase` column of `unicode.CaseRanges` (Unicode 15.0.0,
the tables of Go 1.21 and later), regrouped as runs of equal offset: the simple mappings of
`UnicodeData.txt`.  A code point outside every run is its own lower case. -/
def lowerRuns : List (Nat × Nat × Nat × Int) :=
  [(192, 214, 1, 32), (216, 222, 1, 32), (256, 302, 2, 1), (304, 304, 1, -199), (306, 310, 2, 1),
   (313, 327, 2, 1), (330, 374, 2, 1), (376, 376, 1, -121), (377, 381, 2, 1), (385, 385, 1, 210),
   (386, 388, 2, 1), (390, 390, 1, 206), (391, 391, 1, 1), (393, 394, 1, 205), (395, 395, 1, 1),
   (398, 398, 1, 79), (399, 399, 1, 202), (400, 400, 1, 203), (401, 401, 1, 1),
   (403, 403, 1, 205), (404, 404, 1, 207), (406, 406, 1, 211), (407, 407, 1, 209),
   (408, 408, 1, 1), (412, 412, 1, 211), (413, 413, 1, 213), (415, 415, 1, 214),
   (416, 420, 2, 1), (422, 422, 1, 218), (423, 423, 1, 1), (425, 425, 1, 218), (428, 428, 1, 1),
   (430, 430, 1, 218), (431, 431, 1, 1), (433, 434, 1, 217), (435, 437, 2, 1),
   (439, 439, 1, 219), (440, 440, 1, 1), (444, 444, 1, 1), (452, 452, 1, 2), (453, 453, 1, 1),
   (455, 455, 1, 2), (456, 456, 1, 1), (458, 458, 1, 2), (459, 475, 2, 1), (478, 494, 2, 1),
   (497, 497, 1, 2), (498, 500, 2, 1), (502, 502, 1, -97), (503, 503, 1, -56), (504, 542, 2, 1),
   (544, 544, 1, -130), (546, 562, 2, 1), (570, 570, 1, 10795), (571, 571, 1, 1),
   (573, 573, 1, -163), (574, 574, 1, 10792), (577, 577, 1, 1), (579, 579, 1, -195),
   (580, 580, 1, 69), (581, 581, 1, 71), (582, 590, 2, 1), (880, 882, 2, 1), (886, 886, 1, 1),
   (895, 895, 1, 116), (902, 902, 1, 38), (904, 906, 1, 37), (908, 908, 1, 64),
   (910, 911, 1, 63), (913, 929, 1, 32), (931, 939, 1, 32), (975, 975, 1, 8), (984, 1006, 2, 1),
   (1012, 1012, 1, -60), (1015, 1015, 1, 1), (1017, 1017, 1, -7), (1018, 1018, 1, 1),
   (1021, 1023, 1, -130), (1024, 1039, 1, 80), (1040, 1071, 1, 32), (1120, 1152, 2, 1),
   (1162, 1214, 2, 1), (1216, 1216, 1, 15), (1217, 1229, 2, 1), (1232, 1326, 2, 1),
   (1329, 1366, 1, 48), (4256, 4293, 1, 7264), (4295, 4295, 1, 7264), (4301, 4301, 1, 7264),
   (5024, 5103, 1, 38864), (5104, 5109, 1, 8), (7312, 7354, 1, -3008), (7357, 7359, 1, -3008),
   (7680, 7828, 2, 1), (7838, 7838, 1, -7615), (7840, 7934, 2, 1), (7944, 7951, 1, -8),
   (7960, 7965, 1, -8), (7976, 7983, 1, -8), (7992, 7999, 1, -8), (8008, 8013, 1, -8),
   (8025, 8031, 2, -8), (8040, 8047, 1, -8), (8072, 8079, 1, -8), (8088, 8095, 1, -8),
   (8104, 8111, 1, -8), (8120, 8121, 1, -8), (8122, 8123, 1, -74), (8124, 8124, 1, -9),
   (8136, 8139, 1, -86), (8140, 8140, 1, -9), (8152, 8153, 1, -8), (8154, 8155, 1, -100),
   (8168, 8169, 1, -8), (8170, 8171, 1, -112), (8172, 8172, 1, -7), (8184, 8185, 1, -128),
   (8186, 8187, 1, -126), (8188, 8188, 1, -9), (8486, 8486, 1, -7517), (8490, 8490, 1, -8383),
   (8491, 8491, 1, -8262), (8498, 8498, 1, 28), (8544, 8559, 1, 16), (8579, 8579, 1, 1),
   (9398, 9423, 1, 26), (11264, 11311, 1, 48), (11360, 11360, 1, 1), (11362, 11362, 1, -10743),
   (11363, 11363, 1, -3814), (11364, 11364, 1, -10727), (11367, 11371, 2, 1),
   (11373, 11373, 1, -10780), (11374, 11374, 1, -10749), (11375, 11375, 1, -10783),
   (11376, 11376, 1, -10782), (11378, 11378, 1, 1), (11381, 11381, 1, 1),
   (11390, 11391, 1, -10815), (11392, 11490, 2, 1), (11499, 11501, 2, 1), (11506, 11506, 1, 1),
   (42560, 42604, 2, 1), (42624, 42650, 2, 1), (42786, 42798, 2, 1), (42802, 42862, 2, 1),
   (42873, 42875, 2, 1), (42877, 42877, 1, -35332), (42878, 42886, 2, 1), (42891, 42891, 1, 1),
   (42893, 42893, 1, -42280), (42896, 42898, 2, 1), (42902, 42920, 2, 1),
   (42922, 42922, 1, -42308), (42923, 42923, 1, -42319), (42924, 42924, 1, -42315),
   (42925, 42925, 1, -42305), (42926, 42926, 1, -42308), (42928, 42928, 1, -42258),
   (42929, 42929, 1, -42282), (42930, 42930, 1, -42261), (42931, 42931, 1, 928),
   (42932, 42946, 2, 1), (42948, 42948, 1, -48), (42949, 42949, 1, -42307),
   (42950, 42950, 1, -35384), (42951, 42953, 2, 1), (42960, 42960, 1, 1), (42966, 42968, 2, 1),
   (42997, 42997, 1, 1), (65313, 65338, 1, 32), (66560, 66599, 1, 40), (66736, 66771, 1, 40),
   (66928, 66938, 1, 39), (66940, 66954, 1, 39), (66956, 66962, 1, 39), (66964, 66965, 1, 39),
   (68736, 68786, 1, 64), (71840, 71871, 1, 32), (93760, 93791, 1, 32), (125184, 125217, 1, 34)]

/-- `unicode.ToLower(r)`: ASCII is handled first (`'A'` to `'Z'` move by `'a' - 'A'`), every
other rune is looked up in the case table. -/
def unicodeToLower (r : Char) : Char :=
  if r.toNat ≤ 127 then
    if 'A'.toNat ≤ r.toNat ∧ r.toNat ≤ 'Z'.toNat then Char.ofNat (r.toNat + 32) else r
  else
    match lowerRuns.find? fun run =>
        decide (run.1 ≤ r.toNat) && decide (r.toNat ≤ run.2.1)
          && (r.toNat - run.1) % run.2.2.1 == 0 with
    | some run => Char.ofNat ((r.toNat : Int) + run.2.2.2).toNat
    | none => r

/-- `strings.ToLower(s)`: every rune of `s` is mapped by `unicode.ToLower`. -/
def goToLower (s : String) : String := String.mk (s.data.map unicodeToLower)

/-! ## `sanitizeElasticQueryField` -/

/-- `var reserved`: the reserved keywords, in the order the loop visits them. -/
def reserved : List String :=
  ["\\", "+", "=", "&&", "||", "!", "(", ")", "\x7b", "\x7d", "[", "]", "^", "\"", "~", "*",
    "?", ":", "/"]

/-- `func sanitizeElasticQueryField(keyword string) string`: for each reserved keyword in turn,
if the current text contains it, every occurrence is replaced by a backslash followed by the
keyword. -/
def sanitizeElasticQueryField (keyword : String) : String :=
  reserved.foldl
    (fun sanitizedKeyword char =>
      if stringsContains sanitizedKeyword char then
        stringsReplaceAll sanitizedKeyword char ("\\" ++ char)
      else sanitizedKeyword)
    keyword

/-! ## The query model -/

/-- A JSON value; an object keeps its keys in emission order.  `num` is a number written by
`strconv.FormatInt`; `float` is any other number, kept as the digits the encoder writes. -/
inductive Json where
  | null
  | bool (b : Bool)
  | num (n : Int)
  | float (digits : String)
  | str (s : String)
  | arr (xs : List Json)
  | obj (fields : List (String × Json))

mutual

/-- The values a caller stores in an `interface{}` (`QueryItem.Value`, the values of
`MatchAll`): JSON-like data, or a `QueryDoc` held by value (what `WrapQueryItems` stores).
A Go map is an association list; a nil map or nil slice inside an interface is `null`.

`other` is a value of any other Go type: a float, a struct, a pointer, a named string type,
a channel, a function.  The package never looks inside such a value: both type assertions
(`q.Value.(string)`, `q.Value.(QueryDoc)`) fail on it, and everything else hands it to
`json.Marshal`.  It is therefore given by what `json.Marshal` does with it: `1.5` is
`other (.ok (.float "1.5"))`, `math.NaN()` is
`other (.jsonError (.unsupportedValue "NaN"))`. -/
inductive GoValue where
  | null
  | bool (b : Bool)
  | int (n : Int)
  | str (s : String)
  | list (xs : List GoValue)
  | map (m : List (String × GoValue))
  | doc (d : QueryDoc)
  | other (encoding : Outcome Json)

/-- `type QueryDoc struct`.  `NestDoc *QueryDoc` is an `Option`; `MatchAll` is `none` for the
nil map; an element of `Sort` (`[]map[string]string`) is `none` for a nil map. -/
inductive QueryDoc where
  | mk (Index : String) (From : Int) (Size : Int)
      («Sort» : List (Option (List (String × String))))
      (SearchAfter : List String) (And : List QueryItem) (Not : List QueryItem)
      (Or : List QueryItem) (Filter : List QueryItem) (PageSize : Int) (NestPath : String)
      (NestDoc : Option QueryDoc) (MatchAll : Option (List (String × GoValue)))
      (TrackTotalHits : Bool)

/-- `type QueryItem struct`. -/
inductive QueryItem where
  | mk (Field : String) (Value : GoValue) («Type» : QueryType) (NestedDoc : Option QueryDoc)

end

namespace QueryDoc

@[simp] def Index : QueryDoc → String | mk x _ _ _ _ _ _ _ _ _ _ _ _ _ => x
@[simp] def From : QueryDoc → Int | mk _ x _ _ _ _ _ _ _ _ _ _ _ _ => x
@[simp] def Size : QueryDoc → Int | mk _ _ x _ _ _ _ _ _ _ _ _ _ _ => x
@[simp] def «Sort» : QueryDoc → List (Option (List (String × String)))
  | mk _ _ _ x _ _ _ _ _ _ _ _ _ _ => x
@[simp] def SearchAfter : QueryDoc → List String | mk _ _ _ _ x _ _ _ _ _ _ _ _ _ => x
@[simp] def And : QueryDoc → List QueryItem | mk _ _ _ _ _ x _ _ _ _ _ _ _ _ => x
@[simp] def Not : QueryDoc → List QueryItem | mk _ _ _ _ _ _ x _ _ _ _ _ _ _ => x
@[simp] def Or : QueryDoc → List QueryItem | mk _ _ _ _ _ _ _ x _ _ _ _ _ _ => x
@[simp] def Filter : QueryDoc → List QueryItem | mk _ _ _ _ _ _ _ _ x _ _ _ _ _ => x
@[simp] def PageSize : QueryDoc → Int | mk _ _ _ _ _ _ _ _ _ x _ _ _ _ => x
@[simp] def NestPath : QueryDoc → String | mk _ _ _ _ _ _ _ _ _ _ x _ _ _ => x
@[simp] def NestDoc : QueryDoc → Option QueryDoc | mk _ _ _ _ _ _ _ _ _ _ _ x _ _ => x
@[simp] def MatchAll : QueryDoc → Option (List (String × GoValue))
  | mk _ _ _ _ _ _ _ _ _ _ _ _ x _ => x
@[simp] def TrackTotalHits : QueryDoc → Bool | mk _ _ _ _ _ _ _ _ _ _ _ _ _ x => x

/-- The zero value `QueryDoc{}`. -/
def zero : QueryDoc := mk "" 0 0 [] [] [] [] [] [] 0 "" none none false

end QueryDoc

namespace QueryItem

@[simp] def Field : QueryItem → String | mk x _ _ _ => x
@[simp] def Value : QueryItem → GoValue | mk _ x _ _ => x
@[simp] def «Type» : QueryItem → QueryType | mk _ _ x _ => x
@[simp] def NestedDoc : QueryItem → Option QueryDoc | mk _ _ _ x => x

end QueryItem

/-- `type MatchAllObject map[string]interface{}`. -/
abbrev MatchAllObject := List (String × GoValue)

/-- `type leafQuery struct`. -/
structure leafQuery where
  «Type» : QueryType
  Name : String
  Value : GoValue
  NestedDoc : Option QueryDoc

/-- `type boolWrap struct`; a nil slice and an empty slice are both `[]`. -/
structure boolWrap where
  AndList : List leafQuery
  NotList : List leafQuery
  OrList : List leafQuery
  FilterList : List leafQuery

mutual

/-- `type queryWrap struct`; the three pointer fields are `Option`s. -/
inductive queryWrap where
  | mk (Bool : Option boolWrap) (Nested : Option nestedWrap) (MatchAll : Option MatchAllObject)

/-- `type nestedWrap struct`. -/
inductive nestedWrap where
  | mk (Path : String) (Query : queryWrap)

end

@[simp] def queryWrap.Bool : queryWrap → Option boolWrap | mk x _ _ => x
@[simp] def queryWrap.Nested : queryWrap → Option nestedWrap | mk _ x _ => x
@[simp] def queryWrap.MatchAll : queryWrap → Option MatchAllObject | mk _ _ x => x
@[simp] def nestedWrap.Path : nestedWrap → String | mk x _ => x
@[simp] def nestedWrap.Query : nestedWrap → queryWrap | mk _ x => x

/-- `func updateList(queryItems []QueryItem) []leafQuery`: the loop appends one leaf per item. -/
def updateList (queryItems : List QueryItem) : List leafQuery :=
  queryItems.foldl
    (fun leafQueries item =>
      leafQueries ++ [{ «Type» := item.«Type», Name := item.Field, Value := item.Value,
                        NestedDoc := item.NestedDoc }])
    []

/-- The first part of `getWrappedQuery`: `boolDoc := &boolWrap{}` followed by the four guarded
assignments. -/
def buildBoolDoc (query : QueryDoc) : boolWrap :=
  { AndList := if query.And.length > 0 then updateList query.And else [],
    NotList := if query.Not.length > 0 then updateList query.Not else [],
    OrList := if query.Or.length > 0 then updateList query.Or else [],
    FilterList := if query.Filter.length > 0 then updateList query.Filter else [] }

/-- The final test of `getWrappedQuery`: `qw.Bool = boolDoc` only when a list is non-empty. -/
def attachBool (boolDoc : boolWrap) : Option boolWrap :=
  if boolDoc.AndList.length > 0 ∨ boolDoc.OrList.length > 0 ∨ boolDoc.NotList.length > 0
      ∨ boolDoc.FilterList.length > 0 then some boolDoc else none

/-- `func getWrappedQuery(query QueryDoc) queryWrap`. -/
def getWrappedQuery : QueryDoc → queryWrap
  | .mk ix fr sz so sa and not or filter ps np nestDoc matchAll tth =>
    let boolDoc := buildBoolDoc (.mk ix fr sz so sa and not or filter ps np nestDoc matchAll tth)
    let nested : Option nestedWrap :=
      match nestDoc with
      | none => none
      | some nd => some (nestedWrap.mk nd.NestPath (getWrappedQuery nd))
    queryWrap.mk (attachBool boolDoc) nested matchAll

/-! ## JSON trees

Every `MarshalJSON` of the package is modelled by the tree of the bytes it returns; the bytes
are the compact rendering of the tree (`Json.render`).  The encoder copies the bytes a
`Marshaler` returns through `compact`, which leaves compact encoder output unchanged, so
composing trees and rendering once gives the same bytes. -/

/-- Insert an entry into a key-sorted association list, before entries with the same key. -/
def insertEntry {α : Type} (e : String × α) : List (String × α) → List (String × α)
  | [] => [e]
  | x :: xs => if x.1 < e.1 then x :: insertEntry e xs else e :: x :: xs

/-- The encoder writes a Go map with its keys sorted. -/
def sortEntries {α : Type} (m : List (String × α)) : List (String × α) :=
  m.foldr insertEntry []

/-- Run the per-entry encodings in order; the first failure aborts. -/
def sequenceEntries : List (String × Outcome Json) → Outcome (List (String × Json))
  | [] => .ok []
  | (k, r) :: rest => r.bind fun j => (sequenceEntries rest).bind fun js => .ok ((k, j) :: js)

/-! ## Sizes of query trees

The serializer re-enters `getWrappedQuery` on documents stored inside leaves.  These sizes
show that every such call is on a smaller tree, so serialization terminates. -/

mutual

/-- Size of a value, counting the documents inside it. -/
def GoValue.weight : GoValue → Nat
  | .null => 1
  | .bool _ => 1
  | .int _ => 1
  | .str _ => 1
  | .list xs => 1 + valuesWeight xs
  | .map m => 1 + entriesWeight m
  | .doc d => 2 + d.weight
  | .other _ => 1

/-- Total size of a list of values. -/
def valuesWeight : List GoValue → Nat
  | [] => 0
  | x :: xs => 1 + x.weight + valuesWeight xs

/-- Total size of the values of a map. -/
def entriesWeight : List (String × GoValue) → Nat
  | [] => 0
  | (_, x) :: xs => 1 + x.weight + entriesWeight xs

/-- Size of a document: its four lists, its nested document and its match-all map. -/
def QueryDoc.weight : QueryDoc → Nat
  | .mk _ _ _ _ _ a n o f _ _ nd m _ =>
      2 + itemsWeight a + itemsWeight n + itemsWeight o + itemsWeight f + optDocWeight nd
        + optEntriesWeight m

/-- Size of an optional document. -/
def optDocWeight : Option QueryDoc → Nat
  | none => 0
  | some d => 2 + d.weight

/-- Size of an optional map. -/
def optEntriesWeight : Option (List (String × GoValue)) → Nat
  | none => 0
  | some m => 1 + entriesWeight m

/-- Total size of a list of items. -/
def itemsWeight : List QueryItem → Nat
  | [] => 0
  | x :: xs => 1 + x.weight + itemsWeight xs

/-- Size of an item: its value and its nested document. -/
def QueryItem.weight : QueryItem → Nat
  | .mk _ v _ nd => 16 + v.weight + optDocWeight nd

end

/-- Size of a leaf, equal to the size of the item it was built from. -/
def leafQuery.weight (q : leafQuery) : Nat := 16 + q.Value.weight + optDocWeight q.NestedDoc

/-- Total size of a list of leaves. -/
def leavesWeight : List leafQuery → Nat
  | [] => 0
  | x :: xs => 1 + x.weight + leavesWeight xs

/-- Size of a boolean container. -/
def boolWrap.weight (b : boolWrap) : Nat :=
  leavesWeight b.AndList + leavesWeight b.NotList + leavesWeight b.OrList
    + leavesWeight b.FilterList

/-- Size of an optional boolean container. -/
def optBoolWeight : Option boolWrap → Nat
  | none => 0
  | some b => b.weight

mutual

/-- Size of a resolved body. -/
def queryWrap.weight : queryWrap → Nat
  | .mk b n m => 2 + optBoolWeight b + optNestedWeight n + optEntriesWeight m

/-- Size of an optional nested wrapper. -/
def optNestedWeight : Option nestedWrap → Nat
  | none => 0
  | some n => n.weight

/-- Size of a nested wrapper. -/
def nestedWrap.weight : nestedWrap → Nat
  | .mk _ q => 2 + q.weight

end


/-- The leaf that `updateList` builds from one item. -/
def QueryItem.toLeaf (item : QueryItem) : leafQuery :=
  { «Type» := item.«Type», Name := item.Field, Value := item.Value, NestedDoc := item.NestedDoc }

theorem updateList_eq_map (items : List QueryItem) :
    updateList items = items.map QueryItem.toLeaf := by
  unfold updateList
  suffices h : ∀ acc : List leafQuery,
      items.foldl (fun leafQueries item =>
        leafQueries ++ [{ «Type» := item.«Type», Name := item.Field, Value := item.Value,
                          NestedDoc := item.NestedDoc }]) acc
        = acc ++ items.map QueryItem.toLeaf by
    simpa using h []
  induction items with
  | nil => intro acc; simp
  | cons x xs ih =>
    intro acc
    rw [List.foldl_cons, ih, List.map_cons, List.append_assoc]
    rfl

theorem QueryItem.weight_toLeaf (item : QueryItem) : item.toLeaf.weight = item.weight := by
  cases item
  simp [QueryItem.toLeaf, leafQuery.weight, QueryItem.weight, QueryItem.Value, QueryItem.NestedDoc]

theorem leavesWeight_updateList (items : List QueryItem) :
    leavesWeight (updateList items) = itemsWeight items := by
  rw [updateList_eq_map]
  induction items with
  | nil => simp [leavesWeight, itemsWeight]
  | cons x xs ih => simp [leavesWeight, itemsWeight, ih, QueryItem.weight_toLeaf]

theorem leavesWeight_guard (items : List QueryItem) :
    leavesWeight (if items.length > 0 then updateList items else []) = itemsWeight items := by
  cases items with
  | nil => simp [leavesWeight, itemsWeight]
  | cons x xs => simp [leavesWeight_updateList]

theorem optBoolWeight_attachBool (b : boolWrap) : optBoolWeight (attachBool b) ≤ b.weight := by
  unfold attachBool
  split <;> simp [optBoolWeight]

theorem weight_buildBoolDoc (d : QueryDoc) :
    (buildBoolDoc d).weight
      = itemsWeight d.And + itemsWeight d.Not + itemsWeight d.Or + itemsWeight d.Filter := by
  simp only [buildBoolDoc, boolWrap.weight, leavesWeight_guard]

theorem weight_getWrappedQuery : ∀ d : QueryDoc, (getWrappedQuery d).weight ≤ d.weight
  | .mk ix fr sz so sa a n o f ps np none m tth => by
    have hb := optBoolWeight_attachBool (buildBoolDoc (.mk ix fr sz so sa a n o f ps np none m tth))
    rw [weight_buildBoolDoc] at hb
    simp only [QueryDoc.And, QueryDoc.Not, QueryDoc.Or, QueryDoc.Filter] at hb
    simp only [getWrappedQuery, queryWrap.weight, QueryDoc.weight, optNestedWeight, optDocWeight]
    omega
  | .mk ix fr sz so sa a n o f ps np (some nd) m tth => by
    have ih := weight_getWrappedQuery nd
    have hb := optBoolWeight_attachBool
      (buildBoolDoc (.mk ix fr sz so sa a n o f ps np (some nd) m tth))
    rw [weight_buildBoolDoc] at hb
    simp only [QueryDoc.And, QueryDoc.Not, QueryDoc.Or, QueryDoc.Filter] at hb
    simp only [getWrappedQuery, queryWrap.weight, QueryDoc.weight, optNestedWeight, optDocWeight,
      nestedWrap.weight]
    omega


/-- The first statement of `handleMarshalType`: a wildcard query with a string value gets the
value lowercased. -/
def lowerWildcard (q : leafQuery) : leafQuery :=
  if q.«Type» = Wildcard then
    match q.Value with
    | .str s => { q with Value := .str (goToLower s) }
    | _ => q
  else q

theorem weight_lowerWildcard (q : leafQuery) : (lowerWildcard q).weight = q.weight := by
  unfold lowerWildcard
  split
  · split
    · rename_i h; simp [leafQuery.weight, h, GoValue.weight]
    · rfl
  · rfl

/-- `json.Marshal` of a `map[string]string`: `null` for the nil map, otherwise an object with
the keys sorted. -/
def marshalStringMap : Option (List (String × String)) → Json
  | none => .null
  | some m => .obj (sortEntries (m.map fun kv => (kv.1, Json.str kv.2)))

/-- The `omitempty` rule for a struct field: the field is written only when `present`. -/
def fieldIf (present : Bool) (key : String) (value : Json) : List (String × Json) :=
  if present then [(key, value)] else []

mutual

/-- `json.Marshal` of a value stored in an `interface{}`. -/
def marshalValue : GoValue → Outcome Json
  | .null => .ok .null
  | .bool b => .ok (.bool b)
  | .int n => .ok (.num n)
  | .str s => .ok (.str s)
  | .list xs => (marshalValues xs).map Json.arr
  | .map m => (sequenceEntries (sortEntries (marshalEntries m))).map Json.obj
  | .doc d => QueryDoc.MarshalJSON d
  | .other encoding => encoding
termination_by v => 2 * v.weight
decreasing_by
  all_goals simp_wf
  all_goals simp only [GoValue.weight]
  all_goals omega

/-- The elements of a slice, encoded in order. -/
def marshalValues : List GoValue → Outcome (List Json)
  | [] => .ok []
  | x :: xs =>
    (marshalValue x).bind fun j => (marshalValues xs).bind fun js => .ok (j :: js)
termination_by xs => 2 * valuesWeight xs + 1
decreasing_by
  all_goals simp_wf
  all_goals simp only [valuesWeight]
  all_goals omega

/-- The encoding of each value of a map, paired with its key. -/
def marshalEntries : List (String × GoValue) → List (String × Outcome Json)
  | [] => []
  | (k, v) :: rest => (k, marshalValue v) :: marshalEntries rest
termination_by m => 2 * entriesWeight m + 1
decreasing_by
  all_goals simp_wf
  all_goals simp only [entriesWeight]
  all_goals omega

/-- `func (query QueryDoc) MarshalJSON() ([]byte, error)`, as the tree of the bytes. -/
def QueryDoc.MarshalJSON (query : QueryDoc) : Outcome Json :=
  (marshalQueryWrap (getWrappedQuery query)).map fun q =>
    Json.obj ([("query", q)]
      ++ fieldIf (query.From != 0) "from" (.num query.From)
      ++ fieldIf (query.Size != 0) "size" (.num query.Size)
      ++ fieldIf (!query.«Sort».isEmpty) "sort" (.arr (query.«Sort».map marshalStringMap))
      ++ fieldIf (!query.SearchAfter.isEmpty) "search_after"
          (.arr (query.SearchAfter.map Json.str))
      ++ fieldIf query.TrackTotalHits "track_total_hits" (.bool true))
termination_by 2 * query.weight + 2
decreasing_by
  all_goals simp_wf
  have := weight_getWrappedQuery query
  omega

/-- `json.Marshal` of a `queryWrap` struct: `bool`, `nested`, `match_all`, each `omitempty`. -/
def marshalQueryWrap : queryWrap → Outcome Json
  | .mk b n m =>
    (marshalOptBool b).bind fun fb =>
    (marshalOptNested n).bind fun fn =>
    (match m with
      | none => (Outcome.ok [] : Outcome (List (String × Json)))
      | some mo => (marshalValue (.map mo)).map fun j => [("match_all", j)]).bind fun fm =>
    .ok (Json.obj (fb ++ fn ++ fm))
termination_by q => 2 * q.weight
decreasing_by
  all_goals simp_wf
  all_goals simp only [queryWrap.weight, GoValue.weight, optEntriesWeight]
  all_goals omega

/-- The `bool` field of `queryWrap` (`*boolWrap`, `omitempty`): nothing for a nil pointer,
otherwise the struct with its four `omitempty` slices. -/
def marshalOptBool : Option boolWrap → Outcome (List (String × Json))
  | none => .ok []
  | some b =>
    (marshalLeafField "must" b.AndList).bind fun f1 =>
    (marshalLeafField "must_not" b.NotList).bind fun f2 =>
    (marshalLeafField "should" b.OrList).bind fun f3 =>
    (marshalLeafField "filter" b.FilterList).bind fun f4 =>
    .ok [("bool", Json.obj (f1 ++ f2 ++ f3 ++ f4))]
termination_by b => 2 * optBoolWeight b + 3
decreasing_by
  all_goals simp_wf
  all_goals simp only [optBoolWeight, boolWrap.weight]
  all_goals omega

/-- One `[]leafQuery` field of `boolWrap` with `omitempty`: nothing for an empty slice. -/
def marshalLeafField (key : String) : List leafQuery → Outcome (List (String × Json))
  | [] => .ok []
  | q :: qs => (marshalLeaves (q :: qs)).map fun js => [(key, Json.arr js)]
termination_by qs => 2 * leavesWeight qs + 2
decreasing_by
  all_goals simp_wf

/-- The elements of a `[]leafQuery`, each through its `MarshalJSON`, in order. -/
def marshalLeaves : List leafQuery → Outcome (List Json)
  | [] => .ok []
  | q :: qs =>
    (leafQuery.MarshalJSON q).bind fun j => (marshalLeaves qs).bind fun js => .ok (j :: js)
termination_by qs => 2 * leavesWeight qs + 1
decreasing_by
  all_goals simp_wf
  all_goals simp only [leavesWeight]
  all_goals omega

/-- The `nested` field of `queryWrap` (`*nestedWrap`, `omitempty`): `path` and `query` are
always written. -/
def marshalOptNested : Option nestedWrap → Outcome (List (String × Json))
  | none => .ok []
  | some (.mk path query) =>
    (marshalQueryWrap query).map fun j =>
      [("nested", Json.obj [("path", Json.str path), ("query", j)])]
termination_by n => 2 * optNestedWeight n + 1
decreasing_by
  all_goals simp_wf
  all_goals simp only [optNestedWeight, nestedWrap.weight]
  all_goals omega

/-- `func (q leafQuery) MarshalJSON() ([]byte, error)`, as the tree of the bytes: type
`Nested` asserts `q.Value.(QueryDoc)` and encodes its body; any other type is resolved by
`String()` and handed to `handleMarshalType`. -/
def leafQuery.MarshalJSON (q : leafQuery) : Outcome Json :=
  if q.«Type» = Nested then
    match h : q.Value with
    | .doc d => marshalQueryWrap (getWrappedQuery d)
    | _ => .panic (.interfaceConversion "QueryDoc")
  else
    (QueryType.String q.«Type»).bind fun queryType => leafQuery.handleMarshalType q queryType
termination_by 2 * q.weight + 1
decreasing_by
  all_goals simp_wf
  · have := weight_getWrappedQuery d
    simp only [leafQuery.weight, h, GoValue.weight]
    omega

/-- `func (q leafQuery) handleMarshalType(queryType string) ([]byte, error)`: the wildcard
value is lowercased first (`lowerWildcard`), then `QueryString` is dispatched, then a
non-nil `NestedDoc` gives the `nested` wrapper, and otherwise the two-level map is encoded. -/
def leafQuery.handleMarshalType (q : leafQuery) (queryType : String) : Outcome Json :=
  if (lowerWildcard q).«Type» = QueryString then
    leafQuery.handleMarshalQueryString (lowerWildcard q) queryType
  else
    match h : (lowerWildcard q).NestedDoc with
    | some nd =>
      marshalQueryWrap
        (queryWrap.mk none (some (nestedWrap.mk nd.NestPath (getWrappedQuery nd))) none)
    | none =>
      marshalValue (.map [(queryType, .map [((lowerWildcard q).Name, (lowerWildcard q).Value)])])
termination_by 2 * q.weight
decreasing_by
  all_goals simp_wf
  · rw [weight_lowerWildcard]; simp only [leafQuery.weight]; omega
  · have := weight_getWrappedQuery nd
    have hw := weight_lowerWildcard q
    simp only [leafQuery.weight, h, optDocWeight] at hw
    simp only [queryWrap.weight, optBoolWeight, optNestedWeight, nestedWrap.weight,
      optEntriesWeight, leafQuery.weight]
    omega
  · have hw := weight_lowerWildcard q
    simp only [leafQuery.weight] at hw
    simp only [GoValue.weight, entriesWeight, leafQuery.weight]
    omega

/-- `func (q leafQuery) handleMarshalQueryString(queryType string) ([]byte, error)`. -/
def leafQuery.handleMarshalQueryString (q : leafQuery) (queryType : String) : Outcome Json :=
  match q.Value with
  | .str s =>
    marshalValue (.map [(queryType, .map [
      ("fields", .list [.str q.Name]),
      ("query", .str (sanitizeElasticQueryField s)),
      ("analyze_wildcard", .bool true)])])
  | _ => .panic (.interfaceConversion "string")
termination_by 2 * q.weight - 1
decreasing_by
  all_goals simp_wf
  all_goals simp only [GoValue.weight, entriesWeight, valuesWeight, leafQuery.weight]
  all_goals omega

end

/-! ## Rendering a JSON tree as the encoder's compact bytes -/

/-- A lower-case hexadecimal digit. -/
def hexDigit (n : Nat) : Char :=
  if n < 10 then Char.ofNat (48 + n) else Char.ofNat (87 + n)

/-- The escaping `json.Marshal` applies to one character of a string (HTML escaping is on
for `Marshal`; `\b` and `\f` are written in short form as Go 1.22 and later do). -/
def escapeRune (c : Char) : List Char :=
  if c = '\"' then ['\\', '\"']
  else if c = '\\' then ['\\', '\\']
  else if c = '\x08' then ['\\', 'b']
  else if c = '\x0c' then ['\\', 'f']
  else if c = '\n' then ['\\', 'n']
  else if c = '\r' then ['\\', 'r']
  else if c = '\t' then ['\\', 't']
  else if c.toNat < 32 ∨ c = '<' ∨ c = '>' ∨ c = '&' then
    ['\\', 'u', '0', '0', hexDigit (c.toNat / 16), hexDigit (c.toNat % 16)]
  else if c = '\u2028' then ['\\', 'u', '2', '0', '2', '8']
  else if c = '\u2029' then ['\\', 'u', '2', '0', '2', '9']
  else [c]

/-- A JSON string literal. -/
def renderString (s : String) : String :=
  "\"" ++ String.mk (s.data.flatMap escapeRune) ++ "\""

/-- Decimal digits of a natural number, most significant first. -/
def natDigits : Nat → Nat → List Char → List Char
  | 0, _, acc => acc
  | fuel + 1, n, acc =>
    if n < 10 then Char.ofNat (48 + n) :: acc
    else natDigits fuel (n / 10) (Char.ofNat (48 + n % 10) :: acc)

/-- `strconv.FormatInt(n, 10)`. -/
def formatInt : Int → String
  | .ofNat n => String.mk (natDigits (n + 1) n [])
  | .negSucc n => "-" ++ String.mk (natDigits (n + 2) (n + 1) [])

mutual

/-- The compact bytes of a JSON tree. -/
def Json.render : Json → String
  | .null => "null"
  | .bool true => "true"
  | .bool false => "false"
  | .num n => formatInt n
  | .float digits => digits
  | .str s => renderString s
  | .arr xs => "[" ++ ",".intercalate (renderElems xs) ++ "]"
  | .obj fields => "\x7b" ++ ",".intercalate (renderFields fields) ++ "\x7d"

/-- The rendered elements of an array. -/
def renderElems : List Json → List String
  | [] => []
  | x :: xs => x.render :: renderElems xs

/-- The rendered `key:value` pairs of an object. -/
def renderFields : List (String × Json) → List String
  | [] => []
  | (k, v) :: rest => (renderString k ++ ":" ++ v.render) :: renderFields rest

end

/-- `json.Marshal(query)` for a `QueryDoc`: the bytes of `query.MarshalJSON()`. -/
def jsonMarshal (query : QueryDoc) : Outcome String :=
  (QueryDoc.MarshalJSON query).map Json.render

/-- A Go `error` value that `MultiSearchDoc` can return. -/
inductive GoError where
  | queryType (e : QueryTypeErr)
  | json (e : JsonError)
  deriving DecidableEq, Repr

/-- The `error` result of a call that returned an error; `none` when the call returned a
value or panicked. -/
def Outcome.returnedError {α : Type} : Outcome α → Option GoError
  | .error e => some (.queryType e)
  | .jsonError e => some (.json e)
  | _ => none

/-- What a call of a Go function of type `(string, error)` does: it returns both results, or
it panics. -/
inductive StringResult where
  | returned (s : String) (err : Option GoError)
  | panic (p : Panic)
  deriving DecidableEq, Repr

/-- The loop of `MultiSearchDoc`, with `requestBuilder` as accumulator: the header line is
`fmt.Sprintf` of the index between quotes (no escaping), the body line is `json.Marshal`;
on an error the function executes `return "", err`. -/
def multiSearchLoop : List QueryDoc → String → StringResult
  | [], requestBuilder => .returned requestBuilder none
  | query :: rest, requestBuilder =>
    match jsonMarshal query with
    | .ok body =>
      multiSearchLoop rest
        (requestBuilder ++ ("\x7b\"index\":\"" ++ query.Index ++ "\"\x7d" ++ "\n") ++ (body ++ "\n"))
    | .error e => .returned "" (some (.queryType e))
    | .jsonError e => .returned "" (some (.json e))
    | .panic p => .panic p

/-- `func MultiSearchDoc(queries []QueryDoc) (string, error)`. -/
def MultiSearchDoc (queries : List QueryDoc) : StringResult :=
  multiSearchLoop queries ""

/-- `func WrapQueryItems(itemType string, items ...QueryItem) QueryItem`. -/
def WrapQueryItems (itemType : String) (items : List QueryItem) : QueryItem :=
  let queryDoc : QueryDoc :=
    if goToLower itemType = "or" then
      .mk "" 0 0 [] [] [] [] items [] 0 "" none none false
    else if goToLower itemType = "not" then
      .mk "" 0 0 [] [] [] items [] [] 0 "" none none false
    else if goToLower itemType = "filter" then
      .mk "" 0 0 [] [] [] [] [] items 0 "" none none false
    else
      .mk "" 0 0 [] [] items [] [] [] 0 "" none none false
  .mk "" (.doc queryDoc) Nested none

/-! ## The escaping pass described by the specification -/

/-- What the pass writes for one character: a backslash first when the character is in `S`. -/
def escChar (S : List Char) (c : Char) : List Char :=
  if c ∈ S then ['\\', c] else [c]

/-- A single left-to-right pass over a text: where two equal characters of `D` stand side by
side, one backslash is written before the pair and the pass continues after it; otherwise
one backslash is written before a character of `S`; everything else is copied. -/
def escapePass (S D : List Char) : List Char → List Char
  | [] => []
  | [c] => escChar S c
  | c :: d :: rest =>
      if c ∈ D ∧ c = d then '\\' :: c :: d :: escapePass S D rest
      else escChar S c ++ escapePass S D (d :: rest)

/-- The reserved single characters of the specification. -/
def reservedChars : List Char :=
  ['\\', '+', '=', '!', '(', ')', '{', '}', '[', ']', '^', '\"', '~', '*', '?', ':', '/']

/-- The characters whose doubling (`&&`, `||`) is a reserved token. -/
def doubledChars : List Char := ['&', '|']

/-- The specification's escaping: one left-to-right pass inserting one backslash before each
reserved token. -/
def escapeSinglePass (s : List Char) : List Char := escapePass reservedChars doubledChars s

/-! ## Plain data values -/

mutual

/-- True for plain data: no `QueryDoc` and no value of another Go type is stored inside the
value. -/
def GoValue.isData : GoValue → Bool
  | .null => true
  | .bool _ => true
  | .int _ => true
  | .str _ => true
  | .list xs => valuesAreData xs
  | .map m => entriesAreData m
  | .doc _ => false
  | .other _ => false

/-- True when every value of the list is plain data. -/
def valuesAreData : List GoValue → Bool
  | [] => true
  | x :: xs => x.isData && valuesAreData xs

/-- True when every value of the map is plain data. -/
def entriesAreData : List (String × GoValue) → Bool
  | [] => true
  | (_, v) :: rest => v.isData && entriesAreData rest

end

mutual

/-- The JSON form of a plain data value: the value unchanged, map keys sorted. -/
def GoValue.toJson : GoValue → Json
  | .null => .null
  | .bool b => .bool b
  | .int n => .num n
  | .str s => .str s
  | .list xs => .arr (valuesToJson xs)
  | .map m => .obj (sortEntries (entriesToJson m))
  | .doc _ => .null
  | .other _ => .null

/-- The JSON forms of a list of data values. -/
def valuesToJson : List GoValue → List Json
  | [] => []
  | x :: xs => x.toJson :: valuesToJson xs

/-- The JSON forms of the values of a map, with their keys. -/
def entriesToJson : List (String × GoValue) → List (String × Json)
  | [] => []
  | (k, v) :: rest => (k, v.toJson) :: entriesToJson rest

end

/-! ## Auxiliary definitions used in the statements and proofs -/

/-- The loop body of `sanitizeElasticQueryField` on characters. -/
def sanitizeStep (cur tok : List Char) : List Char :=
  if containsChars cur tok then replaceAllChars cur tok ('\\' :: tok) else cur

/-- The outcome of a call with its value forgotten. -/
def Outcome.void {α : Type} (r : Outcome α) : Outcome Unit := r.map (fun _ => ())

/-- The `match_all` field of `queryWrap`, as `marshalQueryWrap` writes it. -/
def marshalOptMatchAll : Option MatchAllObject → Outcome (List (String × Json))
  | none => .ok []
  | some mo => (marshalValue (.map mo)).map fun j => [("match_all", j)]

/-- The value under `key` in a JSON object, if any. -/
def Json.field (key : String) : Json → Option Json
  | .obj fields => fields.lookup key
  | _ => none

/-- An `omitempty` array field: absent when the array is empty. -/
def leafField (key : String) (js : List Json) : List (String × Json) :=
  if js.isEmpty then [] else [(key, Json.arr js)]

/-- The `bool` member of a body whose four lists encode to the given arrays: absent when all
four are empty, otherwise the keys `must`, `must_not`, `should`, `filter` of the non-empty
ones, in this order. -/
def boolFields (must mustNot should filter : List Json) : List (String × Json) :=
  if must.isEmpty && mustNot.isEmpty && should.isEmpty && filter.isEmpty then []
  else [("bool", Json.obj (leafField "must" must ++ leafField "must_not" mustNot
    ++ leafField "should" should ++ leafField "filter" filter))]

/-- The names of the non-empty lists of a document, in emission order. -/
def boolKeys (d : QueryDoc) : List String :=
  (if d.And.isEmpty then [] else ["must"]) ++ (if d.Not.isEmpty then [] else ["must_not"])
    ++ (if d.Or.isEmpty then [] else ["should"]) ++ (if d.Filter.isEmpty then [] else ["filter"])

/-! ## The documents of the package's tests -/

/-- The document of `TestAndQuery`. -/
def andQueryDoc : QueryDoc :=
  .mk "some_index" 0 0 [some [("id", "asc")]] []
    [.mk "some_index_id" (.str "some-long-key-id-value") Match none] [] [] [] 0 "" none none false

/-- The document of `TestBogusQueryType`. -/
def bogusQueryDoc : QueryDoc :=
  .mk "some_index" 0 0 [some [("id", "asc")]] []
    [.mk "some_index_id" (.str "some-long-key-id-value") 100001 none] [] [] [] 0 "" none none
    false

/-- The document of `TestQueryStringEsc`. -/
def queryStringDoc : QueryDoc :=
  .mk "some_index" 0 0 [] [] [.mk "user.id" (.str "kimchy!") QueryString none] [] [] [] 0 ""
    none none false

/-- A document whose first clause is a `query_string` with a number as value and whose second
clause has an unsupported type. -/
def numberThenBogusDoc : QueryDoc :=
  .mk "some_index" 0 0 [] []
    [.mk "user.id" (.int 42) QueryString none,
     .mk "some_index_id" (.str "some-long-key-id-value") 100001 none] [] [] [] 0 "" none none
    false

/-- The document of `TestFilterQuery`. -/
def filterQueryDoc : QueryDoc :=
  .mk "some_index" 0 0 [] []
    [.mk "title" (.str "Search") Match none, .mk "content" (.str "Elasticsearch") Match none]
    [] []
    [.mk "status" (.str "published") Term none,
     .mk "publish_date" (.map [("gte", .str "2015-01-01")]) Range none]
    0 "" none none false

/-- The first document of `TestNestedQuery`. -/
def nestedQueryDoc : QueryDoc :=
  .mk "123" 0 0 [] []
    [.mk "user.country" (.int 1001) Term none,
     WrapQueryItems "and"
       [.mk "date.year" (.int 2001) Term none, .mk "date.month" (.int 1002) Term none]]
    [] [] [] 0 ""
    (some (.mk "" 0 0 [] []
      [.mk "name" (.str "name1") Term none, .mk "password" (.str "password1") Term none]
      [] [] [] 0 "hello" none none false))
    none false

/-- The header line and the body line of each document, one after the other: the text the
batch helper is specified to return for documents with the given indexes and bodies. -/
def batchLines : List (String × String) → String
  | [] => ""
  | (index, body) :: rest =>
    ("\x7b\"index\":\"" ++ index ++ "\"\x7d" ++ "\n") ++ (body ++ "\n") ++ batchLines rest

/-- The first document of `TestMultiSearchDoc`. -/
def multiDoc1 : QueryDoc :=
  .mk "index1" 0 0 [] [] [.mk "user.id" (.str "kimchy!") QueryString none] [] [] [] 0 ""
    none none false

/-- The second document of `TestMultiSearchDoc`. -/
def multiDoc2 : QueryDoc :=
  .mk "index2" 0 0 [] [] [.mk "some_index_id" (.str "some-long-key-id-value") Match none]
    [] [] [] 0 "" none none false

/-- The keys of a JSON object, in emission order. -/
def Json.keys : Json → List String
  | .obj fields => fields.map Prod.fst
  | _ => []

/-- The top-level keys of a serialized document, as a function of the model: `query` always,
then each of `from`, `size`, `sort`, `search_after`, `track_total_hits` when its field is not
at its zero value. -/
def topLevelKeys (d : QueryDoc) : List String :=
  ["query"] ++ (if d.From = 0 then [] else ["from"]) ++ (if d.Size = 0 then [] else ["size"])
    ++ (if d.«Sort».isEmpty then [] else ["sort"])
    ++ (if d.SearchAfter.isEmpty then [] else ["search_after"])
    ++ (if d.TrackTotalHits then ["track_total_hits"] else [])

/-- The JSON form of the `Sort` field: one element per map, `null` for a nil map and otherwise
an object with the keys sorted. -/
def sortJson (d : QueryDoc) : Json :=
  .arr (d.«Sort».map fun m =>
    match m with
    | none => Json.null
    | some kvs => Json.obj (sortEntries (kvs.map fun kv => (kv.1, Json.str kv.2))))

/-- A document with a clause, a nested document and the empty match-all mapping. -/
def matchAllDoc : QueryDoc :=
  .mk "idx" 0 0 [] [] [.mk "user.country" (.int 1001) Term none] [] [] [] 0 ""
    (some (.mk "" 0 0 [] [] [.mk "name" (.str "name1") Term none] [] [] [] 0 "hello" none none
      false))
    (some []) false

/-- The output key that `WrapQueryItems` is specified to use for an item type: `should` for
`or`, `must_not` for `not`, `filter` for `filter`, and `must` for every other string.  The
comparison ignores case the way the code does: the item type is lowercased with
`strings.ToLower` and compared with the lower-case word. -/
def wrapKey (itemType : String) : String :=
  if goToLower itemType = "or" then "should"
  else if goToLower itemType = "not" then "must_not"
  else if goToLower itemType = "filter" then "filter"
  else "must"

mutual

/-- The `nested` wrappers met from a body by following `nested`, then its `query`, then
`nested` again, and so on, outermost first. -/
def queryWrap.nestedChain : queryWrap → List nestedWrap
  | .mk _ n _ => optNestedChain n

/-- The wrappers met from an optional wrapper: itself, then those below its `query`. -/
def optNestedChain : Option nestedWrap → List nestedWrap
  | none => []
  | some w => w :: w.chainBelow

/-- The wrappers met below the `query` of a wrapper. -/
def nestedWrap.chainBelow : nestedWrap → List nestedWrap
  | .mk _ q => q.nestedChain

end

/-- A document with nested path `path` whose chain of nested documents carries the given
paths, one level per path: a chain of any length. -/
def chainDoc (path : String) : List String → QueryDoc
  | [] => .mk "" 0 0 [] [] [] [] [] [] 0 path none none false
  | p :: ps => .mk "" 0 0 [] [] [] [] [] [] 0 path (some (chainDoc p ps)) none false

/-- True for a textual value. -/
def GoValue.isStr : GoValue → Bool
  | .str _ => true
  | _ => false

/-- True for a `QueryDoc` held by value. -/
def GoValue.isDoc : GoValue → Bool
  | .doc _ => true
  | _ => false

mutual

/-- The condition on a value: every document stored inside it satisfies the condition on
documents; with `checked`, in addition, every value of another Go type stored inside it is
one that `json.Marshal` encodes. -/
def GoValue.wellTyped (checked : Bool) : GoValue → Bool
  | .null => true
  | .bool _ => true
  | .int _ => true
  | .str _ => true
  | .list xs => valuesWellTyped checked xs
  | .map m => entriesWellTyped checked m
  | .doc d => d.wellTyped checked
  | .other encoding => !checked || encoding.isOk

/-- The condition on every value of a list. -/
def valuesWellTyped (checked : Bool) : List GoValue → Bool
  | [] => true
  | x :: xs => x.wellTyped checked && valuesWellTyped checked xs

/-- The condition on every value of a map. -/
def entriesWellTyped (checked : Bool) : List (String × GoValue) → Bool
  | [] => true
  | (_, v) :: rest => v.wellTyped checked && entriesWellTyped checked rest

/-- The condition on a document tree: every item of its four lists, of its nested document
and of the documents stored in its values satisfies the condition on items. -/
def QueryDoc.wellTyped (checked : Bool) : QueryDoc → Bool
  | .mk _ _ _ _ _ a n o f _ _ nd m _ =>
    itemsWellTyped checked a && itemsWellTyped checked n && itemsWellTyped checked o
      && itemsWellTyped checked f && optDocWellTyped checked nd
      && optEntriesWellTyped checked m

/-- The condition on an optional document. -/
def optDocWellTyped (checked : Bool) : Option QueryDoc → Bool
  | none => true
  | some d => d.wellTyped checked

/-- The condition on an optional map. -/
def optEntriesWellTyped (checked : Bool) : Option (List (String × GoValue)) → Bool
  | none => true
  | some m => entriesWellTyped checked m

/-- The condition on every item of a list. -/
def itemsWellTyped (checked : Bool) : List QueryItem → Bool
  | [] => true
  | x :: xs => x.wellTyped checked && itemsWellTyped checked xs

/-- The condition on an item: its type tag is one of the eight enumeration values and, if it
is `QueryString`, its value is textual; with `checked`, in addition, if the tag is `Nested`
its value is a `QueryDoc`, and every stored value is one that `json.Marshal` encodes. -/
def QueryItem.wellTyped (checked : Bool) : QueryItem → Bool
  | .mk _ v t nd =>
    decide (0 ≤ t) && decide (t ≤ 7) && (decide (t ≠ QueryString) || v.isStr)
      && (!checked || decide (t ≠ Nested) || v.isDoc)
      && v.wellTyped checked && optDocWellTyped checked nd

end

/-- A document whose only clause has type `Nested` and no value. -/
def nestedWithoutValueDoc : QueryDoc :=
  .mk "some_index" 0 0 [] [] [.mk "" .null Nested none] [] [] [] 0 "" none none false

/-- The value `math.NaN()`, a `float64`: `json.Marshal` returns an `UnsupportedValueError`
for it. -/
def nanValue : GoValue := .other (.jsonError (.unsupportedValue "NaN"))

/-- A document whose only clause is a `term` clause with the value `math.NaN()`. -/
def nanTermDoc : QueryDoc :=
  .mk "some_index" 0 0 [] [] [.mk "price" nanValue Term none] [] [] [] 0 "" none none false

/-! ## Lemmas on the escaping helper -/

theorem hasPrefixChars_nil (s : List Char) : hasPrefixChars s [] = true := by
  cases s <;> rfl

theorem replaceScan_of_not_contains (old new : List Char) (o : Char) (os : List Char)
    (h : old = o :: os) :
    ∀ s : List Char, containsChars s old = false → replaceScan old new 0 s = s := by
  subst h
  intro s
  induction s with
  | nil => intro _; rfl
  | cons c cs ih =>
    intro hc
    simp only [containsChars, Bool.or_eq_false_iff] at hc
    simp [replaceScan, hc.1, ih hc.2]

theorem sanitizeStep_eq (cur : List Char) (o : Char) (os : List Char) :
    sanitizeStep cur (o :: os) = replaceScan (o :: os) ('\\' :: o :: os) 0 cur := by
  unfold sanitizeStep replaceAllChars
  have hne : ¬ (o :: os = '\\' :: o :: os) := by
    intro h
    have := congrArg List.length h
    simp at this
  by_cases hc : containsChars cur (o :: os) = true
  · simp [hc, hne]
  · simp only [hc]
    simp only [Bool.not_eq_true] at hc
    simp [replaceScan_of_not_contains _ _ o os rfl cur hc]

theorem escapePass_cons (S D : List Char) (c : Char) (hD : c ∉ D) (t : List Char) :
    escapePass S D (c :: t) = escChar S c ++ escapePass S D t := by
  cases t with
  | nil => simp [escapePass]
  | cons d rest => simp [escapePass, hD]

theorem scan1_cons_ne (c : Char) (new : List Char) (x : Char) (t : List Char) (hx : x ≠ c) :
    replaceScan [c] new 0 (x :: t) = x :: replaceScan [c] new 0 t := by
  simp [replaceScan, hasPrefixChars, hx]

theorem scan1_cons_eq (c : Char) (new : List Char) (t : List Char) :
    replaceScan [c] new 0 (c :: t) = new ++ replaceScan [c] new 0 t := by
  simp [replaceScan, hasPrefixChars, hasPrefixChars_nil]

theorem scan1_escChar (S : List Char) (c : Char) (hS : c ∉ S) (hb : c ≠ '\\') (x : Char)
    (t : List Char) :
    replaceScan [c] ['\\', c] 0 (escChar S x ++ t)
      = escChar (c :: S) x ++ replaceScan [c] ['\\', c] 0 t := by
  unfold escChar
  by_cases hx : x ∈ S
  · have hxc : x ≠ c := fun h => hS (h ▸ hx)
    simp [hx, scan1_cons_ne, hxc, Ne.symm hb]
  · by_cases hxc : x = c
    · subst hxc
      simp [hx, scan1_cons_eq]
    · simp [hx, hxc, scan1_cons_ne]

/-- Escaping one more single character after a pass is the pass with that character added. -/
theorem scan1_escapePass (S D : List Char) (c : Char) (hS : c ∉ S) (hD : c ∉ D) (hb : c ≠ '\\')
    (s : List Char) :
    replaceScan [c] ['\\', c] 0 (escapePass S D s) = escapePass (c :: S) D s := by
  induction s using escapePass.induct S D with
  | case1 => simp [escapePass, replaceScan]
  | case2 x =>
    have := scan1_escChar S c hS hb x []
    simpa [escapePass, replaceScan] using this
  | case3 x y rest h ih =>
    obtain ⟨hxD, rfl⟩ := h
    have hxc : x ≠ c := fun h => hD (h ▸ hxD)
    simp [escapePass, hxD, scan1_cons_ne, hxc, Ne.symm hb, ih]
  | case4 x y rest h ih =>
    simp only [escapePass, h, if_false]
    rw [scan1_escChar S c hS hb, ih]

theorem scan1_backslash (s : List Char) :
    replaceScan ['\\'] ['\\', '\\'] 0 s = escapePass ['\\'] [] s := by
  induction s with
  | nil => rfl
  | cons x t ih =>
    rw [escapePass_cons _ _ _ (by simp)]
    by_cases hx : x = '\\'
    · subst hx
      rw [scan1_cons_eq, ih]; simp [escChar]
    · rw [scan1_cons_ne _ _ _ _ hx, ih]; simp [escChar, hx]

theorem scan2_cons_ne (c : Char) (new : List Char) (x : Char) (t : List Char) (hx : x ≠ c) :
    replaceScan [c, c] new 0 (x :: t) = x :: replaceScan [c, c] new 0 t := by
  simp [replaceScan, hasPrefixChars, hx]

theorem scan2_cons_cons_eq (c : Char) (new : List Char) (t : List Char) :
    replaceScan [c, c] new 0 (c :: c :: t) = new ++ replaceScan [c, c] new 0 t := by
  simp [replaceScan, hasPrefixChars, hasPrefixChars_nil]

theorem scan2_cons_eq_ne (c : Char) (new : List Char) (x : Char) (t : List Char) (hx : x ≠ c) :
    replaceScan [c, c] new 0 (c :: x :: t) = c :: x :: replaceScan [c, c] new 0 t := by
  simp [replaceScan, hasPrefixChars, hx]

theorem scan2_single (c : Char) (new : List Char) :
    replaceScan [c, c] new 0 [c] = [c] := by
  simp [replaceScan, hasPrefixChars]

theorem scan2_escChar_ne (S : List Char) (c : Char) (hb : c ≠ '\\') (new : List Char) (x : Char)
    (hx : x ≠ c) (t : List Char) :
    replaceScan [c, c] new 0 (escChar S x ++ t) = escChar S x ++ replaceScan [c, c] new 0 t := by
  unfold escChar
  by_cases hxS : x ∈ S
  · simp [hxS, scan2_cons_ne, hx, Ne.symm hb]
  · simp [hxS, scan2_cons_ne, hx]

/-- The pass on an input that starts with a character other than `c` starts with a character
other than `c`, so an occurrence of `cc` cannot begin just before it. -/
theorem scan2_before_ne (S D : List Char) (c : Char) (hb : c ≠ '\\') (new : List Char)
    (y : Char) (hy : y ≠ c) (rest : List Char) :
    replaceScan [c, c] new 0 (c :: escapePass S D (y :: rest))
      = c :: replaceScan [c, c] new 0 (escapePass S D (y :: rest)) := by
  have key : ∃ h T, escapePass S D (y :: rest) = h :: T ∧ h ≠ c := by
    cases rest with
    | nil =>
      by_cases hyS : y ∈ S
      · exact ⟨'\\', [y], by simp [escapePass, escChar, hyS], Ne.symm hb⟩
      · exact ⟨y, [], by simp [escapePass, escChar, hyS], hy⟩
    | cons z r =>
      by_cases hd : y ∈ D ∧ y = z
      · obtain ⟨hyD, rfl⟩ := hd
        exact ⟨'\\', y :: y :: escapePass S D r, by simp [escapePass, hyD], Ne.symm hb⟩
      · by_cases hyS : y ∈ S
        · exact ⟨'\\', y :: escapePass S D (z :: r),
            by simp [escapePass, hd, escChar, hyS], Ne.symm hb⟩
        · exact ⟨y, escapePass S D (z :: r), by simp [escapePass, hd, escChar, hyS], hy⟩
  obtain ⟨h, T, hT, hh⟩ := key
  rw [hT, scan2_cons_eq_ne _ _ _ _ hh, scan2_cons_ne _ _ _ _ hh]

/-- Escaping one more doubled character after a pass is the pass with that pair added. -/
theorem scan2_escapePass (S D : List Char) (c : Char) (hS : c ∉ S) (hD : c ∉ D) (hb : c ≠ '\\')
    (s : List Char) :
    replaceScan [c, c] ['\\', c, c] 0 (escapePass S D s) = escapePass S (c :: D) s := by
  induction s using escapePass.induct S (c :: D) with
  | case1 => simp [escapePass, replaceScan]
  | case2 x =>
    by_cases hx : x = c
    · subst hx
      simp [escapePass, escChar, hS, scan2_single]
    · have := scan2_escChar_ne S c hb ['\\', c, c] x hx []
      simpa [escapePass, replaceScan] using this
  | case3 x y rest h ih =>
    obtain ⟨hxD, rfl⟩ := h
    by_cases hx : x = c
    · subst hx
      rw [escapePass_cons S D x hD, escapePass_cons S D x hD]
      simp [escChar, hS, scan2_cons_cons_eq, ih, escapePass]
    · have hxD' : x ∈ D := by simpa [hx] using hxD
      simp [escapePass, hxD', hx, scan2_cons_ne, Ne.symm hb, ih]
  | case4 x y rest h ih =>
    have h' : ¬ (x ∈ D ∧ x = y) := fun hh => h ⟨List.mem_cons_of_mem _ hh.1, hh.2⟩
    simp only [escapePass, h, h', if_false]
    by_cases hx : x = c
    · subst hx
      have hy : y ≠ x := fun e => h ⟨List.mem_cons_self _ _, e.symm⟩
      simp only [escChar, hS, if_false, List.singleton_append]
      rw [scan2_before_ne S D x hb _ y hy, ih]
    · rw [scan2_escChar_ne S c hb _ x hx, ih]

theorem escapePass_congr (S D S' D' : List Char) (hS : ∀ x, x ∈ S ↔ x ∈ S')
    (hD : ∀ x, x ∈ D ↔ x ∈ D') (s : List Char) :
    escapePass S D s = escapePass S' D' s := by
  induction s using escapePass.induct S D with
  | case1 => simp [escapePass]
  | case2 x => simp [escapePass, escChar, hS]
  | case3 x y rest h ih =>
    obtain ⟨hx, rfl⟩ := h
    have hx' : x ∈ D' := (hD x).1 hx
    simp [escapePass, hx, hx', ih]
  | case4 x y rest h ih =>
    have h' : ¬ (x ∈ D' ∧ x = y) := fun hh => h ⟨(hD x).2 hh.1, hh.2⟩
    simp only [escapePass, h, h', if_false, ih, escChar, hS]

theorem sanitize_fold_data (toks : List String) :
    ∀ k : String,
      (toks.foldl
        (fun sanitizedKeyword char =>
          if stringsContains sanitizedKeyword char then
            stringsReplaceAll sanitizedKeyword char ("\\" ++ char)
          else sanitizedKeyword) k).data
        = (toks.map String.data).foldl sanitizeStep k.data := by
  induction toks with
  | nil => intro k; rfl
  | cons t ts ih =>
    intro k
    simp only [List.foldl, List.map]
    rw [ih]
    congr 1
    unfold sanitizeStep stringsContains stringsReplaceAll
    split <;> simp

theorem sanitizeChars_eq (s : List Char) :
    (reserved.map String.data).foldl sanitizeStep s = escapeSinglePass s := by
  have hr : reserved.map String.data =
      [['\\'], ['+'], ['='], ['&', '&'], ['|', '|'], ['!'], ['('], [')'], ['{'], ['}'], ['['],
        [']'], ['^'], ['\"'], ['~'], ['*'], ['?'], [':'], ['/']] := by decide
  rw [hr]
  simp only [List.foldl, sanitizeStep_eq]
  rw [scan1_backslash,
    scan1_escapePass _ _ '+' (by decide) (by decide) (by decide),
    scan1_escapePass _ _ '=' (by decide) (by decide) (by decide),
    scan2_escapePass _ _ '&' (by decide) (by decide) (by decide),
    scan2_escapePass _ _ '|' (by decide) (by decide) (by decide),
    scan1_escapePass _ _ '!' (by decide) (by decide) (by decide),
    scan1_escapePass _ _ '(' (by decide) (by decide) (by decide),
    scan1_escapePass _ _ ')' (by decide) (by decide) (by decide),
    scan1_escapePass _ _ '{' (by decide) (by decide) (by decide),
    scan1_escapePass _ _ '}' (by decide) (by decide) (by decide),
    scan1_escapePass _ _ '[' (by decide) (by decide) (by decide),
    scan1_escapePass _ _ ']' (by decide) (by decide) (by decide),
    scan1_escapePass _ _ '^' (by decide) (by decide) (by decide),
    scan1_escapePass _ _ '\"' (by decide) (by decide) (by decide),
    scan1_escapePass _ _ '~' (by decide) (by decide) (by decide),
    scan1_escapePass _ _ '*' (by decide) (by decide) (by decide),
    scan1_escapePass _ _ '?' (by decide) (by decide) (by decide),
    scan1_escapePass _ _ ':' (by decide) (by decide) (by decide),
    scan1_escapePass _ _ '/' (by decide) (by decide) (by decide)]
  unfold escapeSinglePass
  apply escapePass_congr
  · intro x; simp only [reservedChars, List.mem_cons, List.mem_singleton, List.not_mem_nil]; tauto
  · intro x; simp only [doubledChars, List.mem_cons, List.mem_singleton, List.not_mem_nil]; tauto

theorem sanitize_eq_pass (s : String) :
    sanitizeElasticQueryField s = String.mk (escapeSinglePass s.data) := by
  apply String.ext
  show (sanitizeElasticQueryField s).data = _
  unfold sanitizeElasticQueryField
  rw [sanitize_fold_data, sanitizeChars_eq]

theorem sanitize_unchanged (s : String)
    (h : ∀ tok ∈ reserved, stringsContains s tok = false) : sanitizeElasticQueryField s = s := by
  unfold sanitizeElasticQueryField
  simp only [reserved, List.mem_cons, List.mem_singleton, forall_eq_or_imp, forall_eq,
    List.not_mem_nil] at h
  simp [reserved, List.foldl, h]

/-! ## Lemmas on outcomes -/

theorem Outcome.bind_eq_ok {α β : Type} (r : Outcome α) (f : α → Outcome β) (b : β) :
    r.bind f = .ok b ↔ ∃ a, r = .ok a ∧ f a = .ok b := by
  cases r <;> simp [Outcome.bind]

theorem Outcome.map_eq_ok {α β : Type} (r : Outcome α) (f : α → β) (b : β) :
    r.map f = .ok b ↔ ∃ a, r = .ok a ∧ f a = b := by
  cases r <;> simp [Outcome.map]

theorem Outcome.void_map {α β : Type} (r : Outcome α) (f : α → β) : (r.map f).void = r.void := by
  cases r <;> rfl

theorem Outcome.void_bind {α β : Type} (r : Outcome α) (f : α → Outcome β) (c : Outcome Unit)
    (h : ∀ a, (f a).void = c) : (r.bind f).void = r.void.bind (fun _ => c) := by
  cases r
  · simpa [Outcome.bind, Outcome.void, Outcome.map] using h _
  all_goals rfl

theorem Outcome.void_eq_error {α : Type} (r : Outcome α) (e : QueryTypeErr) :
    r.void = .error e ↔ r = .error e := by
  cases r <;> simp [Outcome.void, Outcome.map]

theorem Outcome.isOk_void {α : Type} (r : Outcome α) : r.void.isOk = r.isOk := by
  cases r <;> rfl

theorem Outcome.void_of_isOk {α : Type} (r : Outcome α) (h : r.isOk = true) :
    r.void = .ok () := by
  cases r <;> simp_all [Outcome.void, Outcome.map, Outcome.isOk]

/-! ## Plain data values always encode -/

theorem insertEntry_map {α β : Type} (f : α → β) (e : String × α) (l : List (String × α)) :
    insertEntry (e.1, f e.2) (l.map (fun kv => (kv.1, f kv.2)))
      = (insertEntry e l).map (fun kv => (kv.1, f kv.2)) := by
  induction l with
  | nil => rfl
  | cons x xs ih =>
    simp only [List.map, insertEntry]
    split
    · simp [ih]
    · simp

theorem sortEntries_map {α β : Type} (f : α → β) (l : List (String × α)) :
    sortEntries (l.map (fun kv => (kv.1, f kv.2)))
      = (sortEntries l).map (fun kv => (kv.1, f kv.2)) := by
  induction l with
  | nil => rfl
  | cons x xs ih =>
    simp only [sortEntries, List.map, List.foldr] at ih ⊢
    rw [ih, insertEntry_map]

theorem sequenceEntries_ok (l : List (String × Json)) :
    sequenceEntries (l.map (fun kv => (kv.1, Outcome.ok kv.2))) = .ok l := by
  induction l with
  | nil => rfl
  | cons x xs ih => simp [sequenceEntries, ih, Outcome.bind]

mutual

theorem marshalValue_data : ∀ v : GoValue, v.isData = true → marshalValue v = .ok v.toJson
  | .null, _ => by rw [marshalValue]; rfl
  | .bool _, _ => by rw [marshalValue]; rfl
  | .int _, _ => by rw [marshalValue]; rfl
  | .str _, _ => by rw [marshalValue]; rfl
  | .list xs, h => by
    rw [marshalValue, marshalValues_data xs (by simpa [GoValue.isData] using h)]; rfl
  | .map m, h => by
    rw [marshalValue, marshalEntries_data m (by simpa [GoValue.isData] using h),
      sortEntries_map, sequenceEntries_ok]
    rfl
  | .doc _, h => by simp [GoValue.isData] at h

theorem marshalValues_data : ∀ xs : List GoValue, valuesAreData xs = true →
    marshalValues xs = .ok (valuesToJson xs)
  | [], _ => by rw [marshalValues]; rfl
  | x :: xs, h => by
    simp only [valuesAreData, Bool.and_eq_true] at h
    rw [marshalValues, marshalValue_data x h.1, marshalValues_data xs h.2]
    rfl

theorem marshalEntries_data : ∀ m : List (String × GoValue), entriesAreData m = true →
    marshalEntries m = (entriesToJson m).map (fun kv => (kv.1, Outcome.ok kv.2))
  | [], _ => by rw [marshalEntries]; rfl
  | (k, v) :: rest, h => by
    simp only [entriesAreData, Bool.and_eq_true] at h
    rw [marshalEntries, marshalValue_data v h.1, marshalEntries_data rest h.2]
    rfl

end

/-! ## The resolved body, field by field -/

theorem getWrappedQuery_eq (d : QueryDoc) :
    getWrappedQuery d
      = queryWrap.mk (attachBool (buildBoolDoc d))
          (d.NestDoc.map fun nd => nestedWrap.mk nd.NestPath (getWrappedQuery nd))
          d.MatchAll := by
  cases d with
  | mk ix fr sz so sa a n o f ps np nestDoc m tth =>
    cases nestDoc <;> simp [getWrappedQuery]

theorem updateList_guard (items : List QueryItem) :
    (if items.length > 0 then updateList items else []) = items.map QueryItem.toLeaf := by
  cases items with
  | nil => rfl
  | cons x xs => simp [updateList_eq_map]

theorem buildBoolDoc_eq (d : QueryDoc) :
    buildBoolDoc d
      = { AndList := d.And.map QueryItem.toLeaf, NotList := d.Not.map QueryItem.toLeaf,
          OrList := d.Or.map QueryItem.toLeaf, FilterList := d.Filter.map QueryItem.toLeaf } := by
  simp only [buildBoolDoc, updateList_guard]

theorem attachBool_eq_none (b : boolWrap) :
    attachBool b = none ↔ b.AndList = [] ∧ b.NotList = [] ∧ b.OrList = [] ∧ b.FilterList = [] := by
  obtain ⟨a, n, o, f⟩ := b
  cases a <;> cases n <;> cases o <;> cases f <;> simp [attachBool]

theorem attachBool_of_ne (b : boolWrap)
    (h : ¬ (b.AndList = [] ∧ b.NotList = [] ∧ b.OrList = [] ∧ b.FilterList = [])) :
    attachBool b = some b := by
  obtain ⟨a, n, o, f⟩ := b
  cases a <;> cases n <;> cases o <;> cases f <;> simp_all [attachBool]

theorem body_has_bool_iff (d : QueryDoc) :
    (getWrappedQuery d).Bool.isSome = true
      ↔ (d.And ≠ [] ∨ d.Not ≠ [] ∨ d.Or ≠ [] ∨ d.Filter ≠ []) := by
  rw [getWrappedQuery_eq, queryWrap.Bool, buildBoolDoc_eq]
  obtain ⟨ix, fr, sz, so, sa, a, n, o, f, ps, np, nest, m, tth⟩ := d
  cases a <;> cases n <;> cases o <;> cases f <;> simp [attachBool]

theorem updateList_forall₂ (items : List QueryItem) :
    List.Forall₂
      (fun it q => q.«Type» = it.«Type» ∧ q.Name = it.Field ∧ q.Value = it.Value
        ∧ q.NestedDoc = it.NestedDoc)
      items (updateList items) := by
  rw [updateList_eq_map]
  induction items with
  | nil => exact List.Forall₂.nil
  | cons x xs ih => exact List.Forall₂.cons ⟨rfl, rfl, rfl, rfl⟩ ih

/-! ## One leaf -/

/-- Encoding a one-key map whose value is a one-key map wraps the encoding of the inner value. -/
theorem marshalValue_wrap (queryType name : String) (v : GoValue) :
    marshalValue (.map [(queryType, .map [(name, v)])])
      = (marshalValue v).map (fun j => Json.obj [(queryType, Json.obj [(name, j)])]) := by
  rw [marshalValue, marshalEntries, marshalEntries, marshalValue, marshalEntries, marshalEntries]
  simp only [sortEntries, List.foldr, insertEntry]
  cases marshalValue v <;> rfl

theorem handleMarshalQueryString_str (name s queryType : String) (t : QueryType)
    (nd : Option QueryDoc) :
    leafQuery.handleMarshalQueryString
        { «Type» := t, Name := name, Value := .str s, NestedDoc := nd } queryType
      = .ok (Json.obj [(queryType, Json.obj [("analyze_wildcard", Json.bool true),
          ("fields", Json.arr [Json.str name]),
          ("query", Json.str (sanitizeElasticQueryField s))])]) := by
  rw [leafQuery.handleMarshalQueryString]
  simp [marshalValue, marshalEntries, marshalValues, sortEntries, insertEntry, sequenceEntries,
    Outcome.bind, Outcome.map]

theorem lowerWildcard_of_ne (q : leafQuery) (h : q.«Type» ≠ Wildcard) : lowerWildcard q = q := by
  simp [lowerWildcard, h]

theorem lowerWildcard_Type (q : leafQuery) : (lowerWildcard q).«Type» = q.«Type» := by
  unfold lowerWildcard
  split
  · split <;> rfl
  · rfl

theorem lowerWildcard_NestedDoc (q : leafQuery) : (lowerWildcard q).NestedDoc = q.NestedDoc := by
  unfold lowerWildcard
  split
  · split <;> rfl
  · rfl

/-- A leaf whose tag resolves to `name` and is not `Nested` goes through `handleMarshalType`. -/
theorem MarshalJSON_of_resolved (q : leafQuery) (name : String) (hn : q.«Type» ≠ Nested)
    (hs : QueryType.String q.«Type» = .ok name) :
    leafQuery.MarshalJSON q = leafQuery.handleMarshalType q name := by
  rw [leafQuery.MarshalJSON, if_neg hn, hs]
  rfl

/-- A leaf whose ordinal exceeds the length of the table fails with `QueryTypeErr`. -/
theorem MarshalJSON_of_gt (q : leafQuery) (h : q.«Type» > 8) :
    leafQuery.MarshalJSON q = .error { typeVal := q.«Type» } := by
  have hn : q.«Type» ≠ Nested := by
    intro hc
    rw [hc] at h
    exact absurd h (by decide)
  have hs : QueryType.String q.«Type» = .error { typeVal := q.«Type» } := by
    unfold QueryType.String
    rw [if_pos (by simpa [convs] using h)]
  rw [leafQuery.MarshalJSON, if_neg hn, hs]
  rfl

/-- The default shape: no wildcard lowering, no query string, no nested document. -/
theorem handleMarshalType_default (q : leafQuery) (name : String) (hw : q.«Type» ≠ Wildcard)
    (hq : q.«Type» ≠ QueryString) (hd : q.NestedDoc = none) :
    leafQuery.handleMarshalType q name
      = (marshalValue q.Value).map (fun j => Json.obj [(name, Json.obj [(q.Name, j)])]) := by
  rw [leafQuery.handleMarshalType, lowerWildcard_of_ne q hw, if_neg hq]
  split
  · rename_i nd h; rw [hd] at h; cases h
  · exact marshalValue_wrap name q.Name q.Value

/-- The default shape of a leaf: the encoding of the value under the field, under the type
name. -/
theorem MarshalJSON_default_shape (field : String) (value : GoValue) (t : QueryType) (name : String)
    (ht : t ∈ [Match, Term, Terms, Range, Exists]) (hs : QueryType.String t = .ok name) :
    leafQuery.MarshalJSON (QueryItem.mk field value t none).toLeaf
      = (marshalValue value).map (fun j => Json.obj [(name, Json.obj [(field, j)])]) := by
  have h3 : t ≠ Nested ∧ t ≠ Wildcard ∧ t ≠ QueryString := by
    simp only [List.mem_cons, List.mem_singleton, List.not_mem_nil, or_false] at ht
    rcases ht with rfl | rfl | rfl | rfl | rfl <;> decide
  rw [MarshalJSON_of_resolved _ name h3.1 hs, handleMarshalType_default _ name h3.2.1 h3.2.2 rfl]
  rfl

/-! ## Encoding the body -/

theorem marshalQueryWrap_eq (b : Option boolWrap) (n : Option nestedWrap)
    (m : Option MatchAllObject) :
    marshalQueryWrap (.mk b n m)
      = (marshalOptBool b).bind fun fb =>
          (marshalOptNested n).bind fun fn =>
            (marshalOptMatchAll m).bind fun fm => .ok (Json.obj (fb ++ fn ++ fm)) := by
  rw [marshalQueryWrap.eq_def]
  cases m <;> rfl

theorem marshalQueryWrap_nested_only (path : String) (q : queryWrap) :
    marshalQueryWrap (.mk none (some (.mk path q)) none)
      = (marshalQueryWrap q).map fun jq =>
          Json.obj [("nested", Json.obj [("path", Json.str path), ("query", jq)])] := by
  rw [marshalQueryWrap_eq, marshalOptBool, marshalOptNested]
  cases marshalQueryWrap q <;> rfl

/-- What the code does with an item-level nested document: when the type is match, term,
terms, wildcard, range or exists, the leaf is the `nested` wrapper of the document, whatever
the field and the value are. -/
theorem MarshalJSON_nestedDoc (field : String) (value : GoValue) (t : QueryType)
    (nd : QueryDoc) (ht : t ∈ [Match, Term, Terms, Wildcard, Range, Exists]) :
    leafQuery.MarshalJSON (QueryItem.mk field value t (some nd)).toLeaf
      = (marshalQueryWrap (getWrappedQuery nd)).map fun jq =>
          Json.obj [("nested", Json.obj [("path", Json.str nd.NestPath), ("query", jq)])] := by
  have h : t ≠ Nested ∧ t ≠ QueryString ∧ ∃ name, QueryType.String t = .ok name := by
    simp only [List.mem_cons, List.mem_singleton, List.not_mem_nil, or_false] at ht
    rcases ht with rfl | rfl | rfl | rfl | rfl | rfl
    · exact ⟨by decide, by decide, "match", by decide⟩
    · exact ⟨by decide, by decide, "term", by decide⟩
    · exact ⟨by decide, by decide, "terms", by decide⟩
    · exact ⟨by decide, by decide, "wildcard", by decide⟩
    · exact ⟨by decide, by decide, "range", by decide⟩
    · exact ⟨by decide, by decide, "exists", by decide⟩
  obtain ⟨hn, hq, name, hs⟩ := h
  rw [MarshalJSON_of_resolved _ name hn hs, leafQuery.handleMarshalType,
    if_neg (by rw [lowerWildcard_Type]; exact hq)]
  split
  · rename_i x hx
    rw [lowerWildcard_NestedDoc] at hx
    cases hx
    exact marshalQueryWrap_nested_only _ _
  · rename_i hx
    rw [lowerWildcard_NestedDoc] at hx
    cases hx

theorem marshalLeaves_ok_length :
    ∀ (l : List leafQuery) (js : List Json), marshalLeaves l = .ok js → js.length = l.length
  | [], js, h => by
    rw [marshalLeaves] at h
    cases h; rfl
  | q :: qs, js, h => by
    rw [marshalLeaves] at h
    obtain ⟨j, _, h2⟩ := (Outcome.bind_eq_ok _ _ _).1 h
    obtain ⟨js', h3, h4⟩ := (Outcome.bind_eq_ok _ _ _).1 h2
    cases h4
    simp [marshalLeaves_ok_length qs js' h3]

theorem marshalLeaves_forall₂ :
    ∀ (l : List leafQuery) (js : List Json), marshalLeaves l = .ok js →
      List.Forall₂ (fun q j => leafQuery.MarshalJSON q = .ok j) l js
  | [], js, h => by
    rw [marshalLeaves] at h
    cases h; exact List.Forall₂.nil
  | q :: qs, js, h => by
    rw [marshalLeaves] at h
    obtain ⟨j, h1, h2⟩ := (Outcome.bind_eq_ok _ _ _).1 h
    obtain ⟨js', h3, h4⟩ := (Outcome.bind_eq_ok _ _ _).1 h2
    cases h4
    exact List.Forall₂.cons h1 (marshalLeaves_forall₂ qs js' h3)

theorem marshalLeaves_map_forall₂ (items : List QueryItem) (js : List Json)
    (h : marshalLeaves (items.map QueryItem.toLeaf) = .ok js) :
    List.Forall₂ (fun it j => leafQuery.MarshalJSON it.toLeaf = .ok j) items js := by
  have := marshalLeaves_forall₂ _ _ h
  rwa [List.forall₂_map_left_iff] at this

theorem jsonMarshal_of_body (d : QueryDoc) (q : Json)
    (h : marshalQueryWrap (getWrappedQuery d) = .ok q) :
    jsonMarshal d = .ok (Json.render (Json.obj ([("query", q)]
      ++ fieldIf (d.From != 0) "from" (.num d.From)
      ++ fieldIf (d.Size != 0) "size" (.num d.Size)
      ++ fieldIf (!d.«Sort».isEmpty) "sort" (.arr (d.«Sort».map marshalStringMap))
      ++ fieldIf (!d.SearchAfter.isEmpty) "search_after" (.arr (d.SearchAfter.map Json.str))
      ++ fieldIf d.TrackTotalHits "track_total_hits" (.bool true)))) := by
  unfold jsonMarshal
  rw [QueryDoc.MarshalJSON, h]
  rfl

/-! ## Success or failure of a body -/

theorem marshalLeaves_cons_void (q : leafQuery) (qs : List leafQuery) :
    (marshalLeaves (q :: qs)).void
      = (leafQuery.MarshalJSON q).void.bind fun _ => (marshalLeaves qs).void := by
  rw [marshalLeaves]
  apply Outcome.void_bind
  intro j
  cases marshalLeaves qs <;> rfl

theorem marshalLeaves_append_void (l₁ l₂ : List leafQuery) :
    (marshalLeaves (l₁ ++ l₂)).void
      = (marshalLeaves l₁).void.bind fun _ => (marshalLeaves l₂).void := by
  induction l₁ with
  | nil =>
    rw [List.nil_append, marshalLeaves]
    rfl
  | cons q qs ih =>
    rw [List.cons_append, marshalLeaves_cons_void, marshalLeaves_cons_void, ih]
    cases (leafQuery.MarshalJSON q).void <;> rfl

theorem marshalLeafField_void (key : String) (l : List leafQuery) :
    (marshalLeafField key l).void = (marshalLeaves l).void := by
  cases l with
  | nil => rw [marshalLeafField, marshalLeaves]; rfl
  | cons q qs => rw [marshalLeafField, Outcome.void_map]

/-- The `bool` part of a body succeeds or fails exactly as encoding its leaves one after the
other does, in the order must, must_not, should, filter. -/
theorem marshalOptBool_void (b : boolWrap) :
    (marshalOptBool (attachBool b)).void
      = (marshalLeaves (b.AndList ++ b.NotList ++ b.OrList ++ b.FilterList)).void := by
  by_cases h : b.AndList = [] ∧ b.NotList = [] ∧ b.OrList = [] ∧ b.FilterList = []
  · rw [(attachBool_eq_none b).2 h, h.1, h.2.1, h.2.2.1, h.2.2.2, marshalOptBool]
    simp only [List.append_nil]
    rw [marshalLeaves]
    rfl
  · rw [attachBool_of_ne b h, marshalOptBool, List.append_assoc, List.append_assoc,
      marshalLeaves_append_void, marshalLeaves_append_void, marshalLeaves_append_void,
      ← marshalLeafField_void "must", ← marshalLeafField_void "must_not",
      ← marshalLeafField_void "should", ← marshalLeafField_void "filter"]
    cases marshalLeafField "must" b.AndList <;>
      cases marshalLeafField "must_not" b.NotList <;>
        cases marshalLeafField "should" b.OrList <;>
          cases marshalLeafField "filter" b.FilterList <;> rfl

theorem marshalQueryWrap_void_of_bool_error (b : Option boolWrap) (n : Option nestedWrap)
    (m : Option MatchAllObject) (e : QueryTypeErr) (h : (marshalOptBool b).void = .error e) :
    marshalQueryWrap (.mk b n m) = .error e := by
  rw [marshalQueryWrap_eq, (Outcome.void_eq_error _ _).1 h]
  rfl

theorem marshalQueryWrap_isOk_of_bool (b : Option boolWrap) (n : Option nestedWrap)
    (m : Option MatchAllObject) (h : (marshalOptBool b).isOk = false) :
    (marshalQueryWrap (.mk b n m)).isOk = false := by
  rw [marshalQueryWrap_eq]
  cases hb : marshalOptBool b <;> simp_all [Outcome.bind, Outcome.isOk]

theorem marshalLeaves_first_failure (pre post : List leafQuery) (q : leafQuery)
    (hpre : ∀ x ∈ pre, (leafQuery.MarshalJSON x).isOk = true) :
    (marshalLeaves (pre ++ q :: post)).void
      = (leafQuery.MarshalJSON q).void.bind fun _ => (marshalLeaves post).void := by
  induction pre with
  | nil => rw [List.nil_append, marshalLeaves_cons_void]
  | cons x xs ih =>
    rw [List.cons_append, marshalLeaves_cons_void,
      Outcome.void_of_isOk _ (hpre x (List.mem_cons_self _ _)),
      ih (fun y hy => hpre y (List.mem_cons_of_mem _ hy))]
    rfl

theorem marshalLeaves_isOk_false_of_mem (l : List leafQuery) (q : leafQuery) (hq : q ∈ l)
    (h : (leafQuery.MarshalJSON q).isOk = false) : (marshalLeaves l).isOk = false := by
  induction l with
  | nil => cases hq
  | cons x xs ih =>
    rw [← Outcome.isOk_void, marshalLeaves_cons_void]
    rcases List.mem_cons.1 hq with rfl | hmem
    · rw [← Outcome.isOk_void] at h
      cases hv : (leafQuery.MarshalJSON q).void <;> simp_all [Outcome.bind, Outcome.isOk]
    · have := ih hmem
      rw [← Outcome.isOk_void] at this
      cases hv : (leafQuery.MarshalJSON x).void <;> simp_all [Outcome.bind, Outcome.isOk]

theorem leaves_of_doc (d : QueryDoc) :
    (buildBoolDoc d).AndList ++ (buildBoolDoc d).NotList ++ (buildBoolDoc d).OrList
        ++ (buildBoolDoc d).FilterList
      = (d.And ++ d.Not ++ d.Or ++ d.Filter).map QueryItem.toLeaf := by
  rw [buildBoolDoc_eq]
  simp

/-! ## The shape of a serialized body -/

theorem marshalLeafField_ok (key : String) (l : List leafQuery) (f : List (String × Json))
    (h : marshalLeafField key l = .ok f) :
    ∃ js, marshalLeaves l = .ok js ∧ f = leafField key js := by
  cases l with
  | nil =>
    rw [marshalLeafField] at h
    cases h
    exact ⟨[], by rw [marshalLeaves], rfl⟩
  | cons q qs =>
    rw [marshalLeafField] at h
    obtain ⟨js, h1, h2⟩ := (Outcome.map_eq_ok _ _ _).1 h
    refine ⟨js, h1, ?_⟩
    have hl := marshalLeaves_ok_length _ _ h1
    cases js with
    | nil => simp at hl
    | cons j js' => rw [← h2]; rfl

theorem marshalLeaves_nil_iff (l : List leafQuery) (js : List Json)
    (h : marshalLeaves l = .ok js) : js = [] ↔ l = [] := by
  have hl := marshalLeaves_ok_length _ _ h
  constructor
  · intro e; subst e; exact List.length_eq_zero.1 hl.symm
  · intro e; subst e; exact List.length_eq_zero.1 hl

theorem marshalOptBool_attach_ok (b : boolWrap) (fb : List (String × Json))
    (h : marshalOptBool (attachBool b) = .ok fb) :
    ∃ jsA jsN jsO jsF, marshalLeaves b.AndList = .ok jsA ∧ marshalLeaves b.NotList = .ok jsN
      ∧ marshalLeaves b.OrList = .ok jsO ∧ marshalLeaves b.FilterList = .ok jsF
      ∧ fb = boolFields jsA jsN jsO jsF := by
  by_cases he : b.AndList = [] ∧ b.NotList = [] ∧ b.OrList = [] ∧ b.FilterList = []
  · rw [(attachBool_eq_none b).2 he, marshalOptBool] at h
    cases h
    refine ⟨[], [], [], [], ?_, ?_, ?_, ?_, rfl⟩
    · rw [he.1, marshalLeaves]
    · rw [he.2.1, marshalLeaves]
    · rw [he.2.2.1, marshalLeaves]
    · rw [he.2.2.2, marshalLeaves]
  · rw [attachBool_of_ne b he, marshalOptBool] at h
    obtain ⟨f1, h1, h⟩ := (Outcome.bind_eq_ok _ _ _).1 h
    obtain ⟨f2, h2, h⟩ := (Outcome.bind_eq_ok _ _ _).1 h
    obtain ⟨f3, h3, h⟩ := (Outcome.bind_eq_ok _ _ _).1 h
    obtain ⟨f4, h4, h⟩ := (Outcome.bind_eq_ok _ _ _).1 h
    obtain ⟨jsA, hA, rfl⟩ := marshalLeafField_ok _ _ _ h1
    obtain ⟨jsN, hN, rfl⟩ := marshalLeafField_ok _ _ _ h2
    obtain ⟨jsO, hO, rfl⟩ := marshalLeafField_ok _ _ _ h3
    obtain ⟨jsF, hF, rfl⟩ := marshalLeafField_ok _ _ _ h4
    refine ⟨jsA, jsN, jsO, jsF, hA, hN, hO, hF, ?_⟩
    have hne : ¬ (jsA = [] ∧ jsN = [] ∧ jsO = [] ∧ jsF = []) := by
      intro hh
      exact he ⟨(marshalLeaves_nil_iff _ _ hA).1 hh.1, (marshalLeaves_nil_iff _ _ hN).1 hh.2.1,
        (marshalLeaves_nil_iff _ _ hO).1 hh.2.2.1, (marshalLeaves_nil_iff _ _ hF).1 hh.2.2.2⟩
    cases h
    unfold boolFields
    rw [if_neg]
    simpa [List.isEmpty_iff] using hne

theorem marshalOptNested_ok (nd : Option QueryDoc) (fn : List (String × Json))
    (h : marshalOptNested (nd.map fun x => nestedWrap.mk x.NestPath (getWrappedQuery x))
      = .ok fn) :
    (nd = none → fn = [])
      ∧ ∀ x, nd = some x → ∃ jq, marshalQueryWrap (getWrappedQuery x) = .ok jq
          ∧ fn = [("nested", Json.obj [("path", Json.str x.NestPath), ("query", jq)])] := by
  cases nd with
  | none =>
    rw [Option.map_none', marshalOptNested] at h
    cases h
    exact ⟨fun _ => rfl, fun x hx => by cases hx⟩
  | some y =>
    rw [Option.map_some', marshalOptNested] at h
    obtain ⟨jq, h1, h2⟩ := (Outcome.map_eq_ok _ _ _).1 h
    refine ⟨fun hx => (by cases hx), fun x hx => ?_⟩
    cases hx
    exact ⟨jq, h1, h2.symm⟩

theorem marshalOptMatchAll_ok (m : Option MatchAllObject) (fm : List (String × Json))
    (h : marshalOptMatchAll m = .ok fm) :
    (m = none → fm = [])
      ∧ ∀ mo, m = some mo → ∃ jm, marshalValue (.map mo) = .ok jm ∧ fm = [("match_all", jm)] := by
  cases m with
  | none =>
    cases h
    exact ⟨fun _ => rfl, fun x hx => by cases hx⟩
  | some y =>
    obtain ⟨jm, h1, h2⟩ := (Outcome.map_eq_ok _ _ _).1 h
    refine ⟨fun hx => (by cases hx), fun x hx => ?_⟩
    cases hx
    exact ⟨jm, h1, h2.symm⟩

/-- The shape of every successfully encoded body: the `bool` member built from the four
encoded lists, then the `nested` member, then the `match_all` member. -/
theorem body_shape (d : QueryDoc) (j : Json) (h : marshalQueryWrap (getWrappedQuery d) = .ok j) :
    ∃ jsA jsN jsO jsF fn fm,
      marshalLeaves (d.And.map QueryItem.toLeaf) = .ok jsA
      ∧ marshalLeaves (d.Not.map QueryItem.toLeaf) = .ok jsN
      ∧ marshalLeaves (d.Or.map QueryItem.toLeaf) = .ok jsO
      ∧ marshalLeaves (d.Filter.map QueryItem.toLeaf) = .ok jsF
      ∧ ((d.NestDoc = none → fn = [])
          ∧ ∀ x, d.NestDoc = some x → ∃ jq, marshalQueryWrap (getWrappedQuery x) = .ok jq
              ∧ fn = [("nested", Json.obj [("path", Json.str x.NestPath), ("query", jq)])])
      ∧ ((d.MatchAll = none → fm = [])
          ∧ ∀ mo, d.MatchAll = some mo →
              ∃ jm, marshalValue (.map mo) = .ok jm ∧ fm = [("match_all", jm)])
      ∧ j = Json.obj (boolFields jsA jsN jsO jsF ++ fn ++ fm) := by
  rw [getWrappedQuery_eq, marshalQueryWrap_eq] at h
  obtain ⟨fb, hb, h⟩ := (Outcome.bind_eq_ok _ _ _).1 h
  obtain ⟨fn, hn, h⟩ := (Outcome.bind_eq_ok _ _ _).1 h
  obtain ⟨fm, hm, h⟩ := (Outcome.bind_eq_ok _ _ _).1 h
  obtain ⟨jsA, jsN, jsO, jsF, hA, hN, hO, hF, rfl⟩ := marshalOptBool_attach_ok _ _ hb
  rw [buildBoolDoc_eq] at hA hN hO hF
  cases h
  exact ⟨jsA, jsN, jsO, jsF, fn, fm, hA, hN, hO, hF, marshalOptNested_ok _ _ hn,
    marshalOptMatchAll_ok _ _ hm, rfl⟩

theorem leafField_lookup (must mustNot should filter : List Json) :
    let kvs := leafField "must" must ++ leafField "must_not" mustNot
      ++ leafField "should" should ++ leafField "filter" filter
    kvs.lookup "must" = (if must.isEmpty then none else some (Json.arr must))
      ∧ kvs.lookup "must_not" = (if mustNot.isEmpty then none else some (Json.arr mustNot))
      ∧ kvs.lookup "should" = (if should.isEmpty then none else some (Json.arr should))
      ∧ kvs.lookup "filter" = (if filter.isEmpty then none else some (Json.arr filter)) := by
  cases must <;> cases mustNot <;> cases should <;> cases filter <;>
    simp [leafField, List.lookup]

theorem mem_leafField (key : String) (js : List Json) (kv : String × Json)
    (h : kv ∈ leafField key js) : kv = (key, Json.arr js) ∧ js ≠ [] := by
  unfold leafField at h
  cases js with
  | nil => simp at h
  | cons j js' => simpa using h

theorem isEmpty_of_marshalLeaves (items : List QueryItem) (js : List Json)
    (h : marshalLeaves (items.map QueryItem.toLeaf) = .ok js) : js.isEmpty = items.isEmpty := by
  have hl := marshalLeaves_ok_length _ _ h
  rw [List.length_map] at hl
  cases js <;> cases items <;> simp_all

theorem body_field_bool (fb fn fm : List (String × Json))
    (hn : fn = [] ∨ ∃ v, fn = [("nested", v)]) (hm : fm = [] ∨ ∃ v, fm = [("match_all", v)]) :
    (Json.obj (fb ++ fn ++ fm)).field "bool" = fb.lookup "bool" := by
  have h1 : fn.lookup "bool" = none := by
    rcases hn with rfl | ⟨v, rfl⟩
    · rfl
    · simp [List.lookup]
  have h2 : fm.lookup "bool" = none := by
    rcases hm with rfl | ⟨v, rfl⟩
    · rfl
    · simp [List.lookup]
  simp [Json.field, List.lookup_append, h1, h2]

/-! ## The documents of the tests, serialized -/

theorem andQueryDoc_body :
    marshalQueryWrap (getWrappedQuery andQueryDoc)
      = .ok (.obj [("bool", .obj [("must", .arr [.obj [("match",
          .obj [("some_index_id", .str "some-long-key-id-value")])]])])]) := by
  simp [andQueryDoc, getWrappedQuery, buildBoolDoc, attachBool, updateList,
    marshalQueryWrap, marshalOptBool, marshalLeafField, marshalLeaves, leafQuery.MarshalJSON,
    leafQuery.handleMarshalType, marshalValue, marshalEntries, marshalOptNested, lowerWildcard,
    Match, Nested, Wildcard, QueryString, QueryType.String, convs, indexString, Outcome.bind,
    Outcome.map, sortEntries, insertEntry, sequenceEntries]

theorem andQueryDoc_tree :
    QueryDoc.MarshalJSON andQueryDoc
      = .ok (.obj [("query", .obj [("bool", .obj [("must", .arr [.obj [("match",
          .obj [("some_index_id", .str "some-long-key-id-value")])]])])]),
          ("sort", .arr [.obj [("id", .str "asc")]])]) := by
  simp [QueryDoc.MarshalJSON, marshalStringMap, andQueryDoc, getWrappedQuery, buildBoolDoc, attachBool, updateList,
    marshalQueryWrap, marshalOptBool, marshalLeafField, marshalLeaves, leafQuery.MarshalJSON,
    leafQuery.handleMarshalType, marshalValue, marshalEntries, marshalOptNested, lowerWildcard,
    Match, Nested, Wildcard, QueryString, QueryType.String, convs, indexString, Outcome.bind,
    Outcome.map, sortEntries, insertEntry, sequenceEntries, fieldIf]

theorem queryStringDoc_tree :
    QueryDoc.MarshalJSON queryStringDoc
      = .ok (.obj [("query", .obj [("bool", .obj [("must", .arr [.obj [("query_string",
          .obj [("analyze_wildcard", .bool true), ("fields", .arr [.str "user.id"]),
            ("query", .str (sanitizeElasticQueryField "kimchy!"))])]])])])]) := by
  simp [QueryDoc.MarshalJSON, queryStringDoc, getWrappedQuery, buildBoolDoc, attachBool,
    updateList, marshalQueryWrap, marshalOptBool, marshalLeafField, marshalLeaves,
    leafQuery.MarshalJSON, leafQuery.handleMarshalType, leafQuery.handleMarshalQueryString,
    marshalValue, marshalValues, marshalEntries, marshalOptNested, lowerWildcard,
    Match, Nested, Wildcard, QueryString, QueryType.String, convs, indexString, Outcome.bind,
    Outcome.map, sortEntries, insertEntry, sequenceEntries, fieldIf]

theorem numberThenBogusDoc_tree :
    QueryDoc.MarshalJSON numberThenBogusDoc = .panic (.interfaceConversion "string") := by
  simp [QueryDoc.MarshalJSON, numberThenBogusDoc, getWrappedQuery, buildBoolDoc, attachBool,
    updateList, marshalQueryWrap, marshalOptBool, marshalLeafField, marshalLeaves,
    leafQuery.MarshalJSON, leafQuery.handleMarshalType, leafQuery.handleMarshalQueryString,
    marshalValue, marshalValues, marshalEntries, marshalOptNested, lowerWildcard,
    Match, Nested, Wildcard, QueryString, QueryType.String, convs, indexString, Outcome.bind,
    Outcome.map, sortEntries, insertEntry, sequenceEntries, fieldIf]

theorem filterQueryDoc_body :
    marshalQueryWrap (getWrappedQuery filterQueryDoc)
      = .ok (.obj [("bool", .obj [
          ("must", .arr [.obj [("match", .obj [("title", .str "Search")])],
            .obj [("match", .obj [("content", .str "Elasticsearch")])]]),
          ("filter", .arr [.obj [("term", .obj [("status", .str "published")])],
            .obj [("range", .obj [("publish_date", .obj [("gte", .str "2015-01-01")])])]])])]) := by
  simp [filterQueryDoc, getWrappedQuery, buildBoolDoc, attachBool, updateList,
    marshalQueryWrap, marshalOptBool, marshalLeafField, marshalLeaves, leafQuery.MarshalJSON,
    leafQuery.handleMarshalType, marshalValue, marshalEntries, marshalOptNested, lowerWildcard,
    Match, Term, Range, Nested, Wildcard, QueryString, QueryType.String, convs, indexString,
    Outcome.bind, Outcome.map, sortEntries, insertEntry, sequenceEntries]

theorem nestedQueryDoc_body :
    marshalQueryWrap (getWrappedQuery nestedQueryDoc)
      = .ok (.obj [
          ("bool", .obj [("must", .arr [.obj [("term", .obj [("user.country", .num 1001)])],
            .obj [("bool", .obj [("must", .arr [
              .obj [("term", .obj [("date.year", .num 2001)])],
              .obj [("term", .obj [("date.month", .num 1002)])]])])]])]),
          ("nested", .obj [("path", .str "hello"),
            ("query", .obj [("bool", .obj [("must", .arr [
              .obj [("term", .obj [("name", .str "name1")])],
              .obj [("term", .obj [("password", .str "password1")])]])])])])]) := by
  have hl : goToLower "and" = "and" := by decide
  simp [nestedQueryDoc, WrapQueryItems, hl, getWrappedQuery, buildBoolDoc, attachBool, updateList,
    marshalQueryWrap, marshalOptBool, marshalLeafField, marshalLeaves, leafQuery.MarshalJSON,
    leafQuery.handleMarshalType, marshalValue, marshalEntries, marshalOptNested, lowerWildcard,
    Match, Term, Range, Nested, Wildcard, QueryString, QueryType.String, convs, indexString,
    Outcome.bind, Outcome.map, sortEntries, insertEntry, sequenceEntries]

theorem multiSearchLoop_ok (queries : List QueryDoc) :
    ∀ (bodies : List String) (acc : String),
      List.Forall₂ (fun q b => jsonMarshal q = .ok b) queries bodies →
      multiSearchLoop queries acc
        = .returned (acc ++ batchLines ((queries.map QueryDoc.Index).zip bodies)) none := by
  induction queries with
  | nil =>
    intro bodies acc h
    cases h
    simp [multiSearchLoop, batchLines]
  | cons q qs ih =>
    intro bodies acc h
    cases h with
    | cons hq hrest =>
      rw [multiSearchLoop, hq]
      simp only [List.map_cons, List.zip_cons_cons, batchLines]
      rw [ih _ _ hrest]
      simp only [String.append_assoc, List.zip]

theorem multiSearchLoop_first_failure (pre : List QueryDoc) :
    ∀ (q : QueryDoc) (post : List QueryDoc) (err : GoError) (acc : String),
      (∀ x ∈ pre, (jsonMarshal x).isOk = true) → (jsonMarshal q).returnedError = some err →
      multiSearchLoop (pre ++ q :: post) acc = .returned "" (some err) := by
  induction pre with
  | nil =>
    intro q post err acc _ hq
    rw [List.nil_append, multiSearchLoop]
    cases hj : jsonMarshal q with
    | ok body => rw [hj] at hq; cases hq
    | error e => rw [hj] at hq; cases hq; rfl
    | jsonError e => rw [hj] at hq; cases hq; rfl
    | panic p => rw [hj] at hq; cases hq
  | cons x xs ih =>
    intro q post err acc hpre hq
    have hx := hpre x (List.mem_cons_self _ _)
    rw [List.cons_append, multiSearchLoop]
    cases hj : jsonMarshal x with
    | ok body => exact ih q post err _ (fun y hy => hpre y (List.mem_cons_of_mem _ hy)) hq
    | error e' => rw [hj] at hx; cases hx
    | jsonError e' => rw [hj] at hx; cases hx
    | panic p => rw [hj] at hx; cases hx

theorem multiSearchLoop_first_panic (pre : List QueryDoc) :
    ∀ (q : QueryDoc) (post : List QueryDoc) (p : Panic) (acc : String),
      (∀ x ∈ pre, (jsonMarshal x).isOk = true) → jsonMarshal q = .panic p →
      multiSearchLoop (pre ++ q :: post) acc = .panic p := by
  induction pre with
  | nil =>
    intro q post p acc _ hq
    rw [List.nil_append, multiSearchLoop, hq]
  | cons x xs ih =>
    intro q post p acc hpre hq
    have hx := hpre x (List.mem_cons_self _ _)
    rw [List.cons_append, multiSearchLoop]
    cases hj : jsonMarshal x with
    | ok body => exact ih q post p _ (fun y hy => hpre y (List.mem_cons_of_mem _ hy)) hq
    | error e' => rw [hj] at hx; cases hx
    | jsonError e' => rw [hj] at hx; cases hx
    | panic p' => rw [hj] at hx; cases hx

theorem multiDoc1_body :
    marshalQueryWrap (getWrappedQuery multiDoc1)
      = .ok (.obj [("bool", .obj [("must", .arr [.obj [("query_string",
          .obj [("analyze_wildcard", .bool true), ("fields", .arr [.str "user.id"]),
            ("query", .str (sanitizeElasticQueryField "kimchy!"))])]])])]) := by
  simp [multiDoc1, getWrappedQuery, buildBoolDoc, attachBool,
    updateList, marshalQueryWrap, marshalOptBool, marshalLeafField, marshalLeaves,
    leafQuery.MarshalJSON, leafQuery.handleMarshalType, leafQuery.handleMarshalQueryString,
    marshalValue, marshalValues, marshalEntries, marshalOptNested, lowerWildcard,
    Match, Nested, Wildcard, QueryString, QueryType.String, convs, indexString, Outcome.bind,
    Outcome.map, sortEntries, insertEntry, sequenceEntries]

theorem multiDoc2_body :
    marshalQueryWrap (getWrappedQuery multiDoc2)
      = .ok (.obj [("bool", .obj [("must", .arr [.obj [("match",
          .obj [("some_index_id", .str "some-long-key-id-value")])]])])]) := by
  simp [multiDoc2, getWrappedQuery, buildBoolDoc, attachBool, updateList,
    marshalQueryWrap, marshalOptBool, marshalLeafField, marshalLeaves, leafQuery.MarshalJSON,
    leafQuery.handleMarshalType, marshalValue, marshalEntries, marshalOptNested, lowerWildcard,
    Match, Nested, Wildcard, QueryString, QueryType.String, convs, indexString, Outcome.bind,
    Outcome.map, sortEntries, insertEntry, sequenceEntries]

set_option maxRecDepth 20000 in
theorem multiDoc1_bytes :
    jsonMarshal multiDoc1
      = .ok ("\x7b\"query\":\x7b\"bool\":\x7b\"must\":[\x7b\"query_string\":\x7b"
          ++ "\"analyze_wildcard\":true,\"fields\":[\"user.id\"],"
          ++ "\"query\":\"kimchy\\\\!\"\x7d\x7d]\x7d\x7d\x7d") := by
  rw [jsonMarshal_of_body _ _ multiDoc1_body]
  decide

set_option maxRecDepth 20000 in
theorem multiDoc2_bytes :
    jsonMarshal multiDoc2
      = .ok ("\x7b\"query\":\x7b\"bool\":\x7b\"must\":[\x7b\"match\":\x7b\"some_index_id\":"
          ++ "\"some-long-key-id-value\"\x7d\x7d]\x7d\x7d\x7d") := by
  rw [jsonMarshal_of_body _ _ multiDoc2_body]
  decide

theorem bogusQueryDoc_error :
    jsonMarshal bogusQueryDoc = .error { typeVal := 100001 } := by
  unfold jsonMarshal
  simp [QueryDoc.MarshalJSON, bogusQueryDoc, getWrappedQuery, buildBoolDoc, attachBool,
    updateList, marshalQueryWrap, marshalOptBool, marshalLeafField, marshalLeaves,
    leafQuery.MarshalJSON, Nested, QueryType.String, convs, Outcome.bind, Outcome.map]

theorem lowerWildcard_str (name s : String) (nd : Option QueryDoc) :
    lowerWildcard { «Type» := Wildcard, Name := name, Value := .str s, NestedDoc := nd }
      = { «Type» := Wildcard, Name := name, Value := .str (goToLower s), NestedDoc := nd } := by
  simp [lowerWildcard]

theorem lowerWildcard_not_str (q : leafQuery) (h : ∀ s, q.Value ≠ .str s) :
    lowerWildcard q = q := by
  unfold lowerWildcard
  split
  · split
    · rename_i s hs
      exact absurd hs (h s)
    · rfl
  · rfl

theorem marshalValue_str (s : String) : marshalValue (.str s) = .ok (Json.str s) := by
  rw [marshalValue]

theorem MarshalJSON_ok (d : QueryDoc) (j : Json) (h : QueryDoc.MarshalJSON d = .ok j) :
    ∃ q, marshalQueryWrap (getWrappedQuery d) = .ok q
      ∧ j = Json.obj ([("query", q)]
        ++ fieldIf (d.From != 0) "from" (.num d.From)
        ++ fieldIf (d.Size != 0) "size" (.num d.Size)
        ++ fieldIf (!d.«Sort».isEmpty) "sort" (sortJson d)
        ++ fieldIf (!d.SearchAfter.isEmpty) "search_after" (.arr (d.SearchAfter.map Json.str))
        ++ fieldIf d.TrackTotalHits "track_total_hits" (.bool true)) := by
  rw [QueryDoc.MarshalJSON] at h
  obtain ⟨q, hq, hj⟩ := (Outcome.map_eq_ok _ _ _).1 h
  exact ⟨q, hq, hj.symm⟩

theorem matchAllDoc_body :
    marshalQueryWrap (getWrappedQuery matchAllDoc)
      = .ok (.obj [
          ("bool", .obj [("must", .arr [.obj [("term", .obj [("user.country", .num 1001)])]])]),
          ("nested", .obj [("path", .str "hello"),
            ("query", .obj [("bool", .obj [("must", .arr [
              .obj [("term", .obj [("name", .str "name1")])]])])])]),
          ("match_all", .obj [])]) := by
  simp [matchAllDoc, getWrappedQuery, buildBoolDoc, attachBool, updateList,
    marshalQueryWrap, marshalOptBool, marshalLeafField, marshalLeaves, leafQuery.MarshalJSON,
    leafQuery.handleMarshalType, marshalValue, marshalEntries, marshalOptNested, lowerWildcard,
    Match, Term, Range, Nested, Wildcard, QueryString, QueryType.String, convs, indexString,
    Outcome.bind, Outcome.map, sortEntries, insertEntry, sequenceEntries]

theorem body_field_match_all (fb fn fm : List (String × Json))
    (hb : fb = [] ∨ ∃ v, fb = [("bool", v)]) (hn : fn = [] ∨ ∃ v, fn = [("nested", v)]) :
    (Json.obj (fb ++ fn ++ fm)).field "match_all" = fm.lookup "match_all" := by
  have h1 : fb.lookup "match_all" = none := by
    rcases hb with rfl | ⟨v, rfl⟩
    · rfl
    · simp [List.lookup]
  have h2 : fn.lookup "match_all" = none := by
    rcases hn with rfl | ⟨v, rfl⟩
    · rfl
    · simp [List.lookup]
  simp [Json.field, List.lookup_append, h1, h2]

theorem boolFields_cases (jsA jsN jsO jsF : List Json) :
    boolFields jsA jsN jsO jsF = [] ∨ ∃ v, boolFields jsA jsN jsO jsF = [("bool", v)] := by
  unfold boolFields
  split
  · exact Or.inl rfl
  · exact Or.inr ⟨_, rfl⟩

theorem marshalQueryWrap_bool_only (b : boolWrap) :
    marshalQueryWrap (.mk (some b) none none)
      = (marshalOptBool (some b)).map fun fb => Json.obj fb := by
  rw [marshalQueryWrap_eq, marshalOptNested]
  cases marshalOptBool (some b) <;> simp [Outcome.bind, Outcome.map, marshalOptMatchAll]

theorem marshalLeaves_nil : marshalLeaves [] = .ok [] := by
  rw [marshalLeaves]

theorem marshalLeafField_nil (key : String) : marshalLeafField key [] = .ok [] := by
  rw [marshalLeafField]

theorem marshalLeafField_of_ne (key : String) (l : List leafQuery) (h : l ≠ []) :
    marshalLeafField key l = (marshalLeaves l).map fun js => [(key, Json.arr js)] := by
  cases l with
  | nil => exact absurd rfl h
  | cons q qs => rw [marshalLeafField]

theorem inline_bool_body (items : List QueryItem) (hne : items ≠ []) :
    marshalQueryWrap (getWrappedQuery (.mk "" 0 0 [] [] items [] [] [] 0 "" none none false))
        = ((marshalLeaves (items.map QueryItem.toLeaf)).map fun js =>
            Json.obj [("bool", Json.obj [("must", Json.arr js)])])
      ∧ marshalQueryWrap (getWrappedQuery (.mk "" 0 0 [] [] [] items [] [] 0 "" none none false))
        = ((marshalLeaves (items.map QueryItem.toLeaf)).map fun js =>
            Json.obj [("bool", Json.obj [("must_not", Json.arr js)])])
      ∧ marshalQueryWrap (getWrappedQuery (.mk "" 0 0 [] [] [] [] items [] 0 "" none none false))
        = ((marshalLeaves (items.map QueryItem.toLeaf)).map fun js =>
            Json.obj [("bool", Json.obj [("should", Json.arr js)])])
      ∧ marshalQueryWrap (getWrappedQuery (.mk "" 0 0 [] [] [] [] [] items 0 "" none none false))
        = ((marshalLeaves (items.map QueryItem.toLeaf)).map fun js =>
            Json.obj [("bool", Json.obj [("filter", Json.arr js)])]) := by
  have hl : items.map QueryItem.toLeaf ≠ [] := by
    intro h
    exact hne (List.map_eq_nil_iff.1 h)
  refine ⟨?_, ?_, ?_, ?_⟩
  · rw [getWrappedQuery_eq, buildBoolDoc_eq]
    simp only [QueryDoc.And, QueryDoc.Not, QueryDoc.Or, QueryDoc.Filter, QueryDoc.NestDoc,
      QueryDoc.MatchAll, List.map_nil, Option.map_none']
    rw [attachBool_of_ne _ (by simp [hl]), marshalQueryWrap_bool_only, marshalOptBool]
    simp only [marshalLeafField_nil, marshalLeafField_of_ne _ _ hl]
    cases marshalLeaves (items.map QueryItem.toLeaf) <;> rfl
  · rw [getWrappedQuery_eq, buildBoolDoc_eq]
    simp only [QueryDoc.And, QueryDoc.Not, QueryDoc.Or, QueryDoc.Filter, QueryDoc.NestDoc,
      QueryDoc.MatchAll, List.map_nil, Option.map_none']
    rw [attachBool_of_ne _ (by simp [hl]), marshalQueryWrap_bool_only, marshalOptBool]
    simp only [marshalLeafField_nil, marshalLeafField_of_ne _ _ hl]
    cases marshalLeaves (items.map QueryItem.toLeaf) <;> rfl
  · rw [getWrappedQuery_eq, buildBoolDoc_eq]
    simp only [QueryDoc.And, QueryDoc.Not, QueryDoc.Or, QueryDoc.Filter, QueryDoc.NestDoc,
      QueryDoc.MatchAll, List.map_nil, Option.map_none']
    rw [attachBool_of_ne _ (by simp [hl]), marshalQueryWrap_bool_only, marshalOptBool]
    simp only [marshalLeafField_nil, marshalLeafField_of_ne _ _ hl]
    cases marshalLeaves (items.map QueryItem.toLeaf) <;> rfl
  · rw [getWrappedQuery_eq, buildBoolDoc_eq]
    simp only [QueryDoc.And, QueryDoc.Not, QueryDoc.Or, QueryDoc.Filter, QueryDoc.NestDoc,
      QueryDoc.MatchAll, List.map_nil, Option.map_none']
    rw [attachBool_of_ne _ (by simp [hl]), marshalQueryWrap_bool_only, marshalOptBool]
    simp only [marshalLeafField_nil, marshalLeafField_of_ne _ _ hl]
    cases marshalLeaves (items.map QueryItem.toLeaf) <;> rfl

theorem MarshalJSON_nested_value (name : String) (d : QueryDoc) (nd : Option QueryDoc) :
    leafQuery.MarshalJSON { «Type» := Nested, Name := name, Value := .doc d, NestedDoc := nd }
      = marshalQueryWrap (getWrappedQuery d) := by
  rw [leafQuery.MarshalJSON]
  simp

theorem nestedChain_of_none (d : QueryDoc) (h : d.NestDoc = none) :
    (getWrappedQuery d).nestedChain = [] := by
  rw [getWrappedQuery_eq, h]
  rfl

theorem nestedChain_of_some (d nd : QueryDoc) (h : d.NestDoc = some nd) :
    (getWrappedQuery d).nestedChain
      = nestedWrap.mk nd.NestPath (getWrappedQuery nd) :: (getWrappedQuery nd).nestedChain := by
  rw [getWrappedQuery_eq, h]
  rfl

theorem nestedChain_chain (rest : List QueryDoc) :
    ∀ d0 : QueryDoc, List.Chain (fun a b => a.NestDoc = some b) d0 rest →
      (getWrappedQuery d0).nestedChain
        = rest.map (fun d => nestedWrap.mk d.NestPath (getWrappedQuery d))
          ++ (getWrappedQuery (rest.getLastD d0)).nestedChain := by
  induction rest with
  | nil => intro d0 _; rfl
  | cons d1 rest ih =>
    intro d0 h
    rw [List.chain_cons] at h
    rw [nestedChain_of_some d0 d1 h.1, ih d1 h.2, List.map_cons, List.cons_append]
    cases rest <;> rfl

theorem nestedChain_chainDoc (paths : List String) :
    ∀ path : String,
      (getWrappedQuery (chainDoc path paths)).nestedChain.map nestedWrap.Path = paths := by
  induction paths with
  | nil => intro path; rfl
  | cons p ps ih =>
    intro path
    have hp : (chainDoc p ps).NestPath = p := by cases ps <;> rfl
    rw [nestedChain_of_some (chainDoc path (p :: ps)) (chainDoc p ps) (by rw [chainDoc]; rfl),
      List.map_cons, ih p, nestedWrap.Path, hp]

theorem mem_insertEntry {α : Type} (e x : String × α) (l : List (String × α))
    (h : x ∈ insertEntry e l) : x = e ∨ x ∈ l := by
  induction l with
  | nil => simp [insertEntry] at h; exact Or.inl h
  | cons y ys ih =>
    simp only [insertEntry] at h
    split at h
    · rcases List.mem_cons.1 h with rfl | h'
      · exact Or.inr (List.mem_cons_self _ _)
      · rcases ih h' with h'' | h''
        · exact Or.inl h''
        · exact Or.inr (List.mem_cons_of_mem _ h'')
    · rcases List.mem_cons.1 h with rfl | h'
      · exact Or.inl rfl
      · exact Or.inr h'

theorem mem_sortEntries {α : Type} (x : String × α) (l : List (String × α))
    (h : x ∈ sortEntries l) : x ∈ l := by
  induction l with
  | nil => simp [sortEntries] at h
  | cons y ys ih =>
    simp only [sortEntries, List.foldr] at h ih
    rcases mem_insertEntry _ _ _ h with rfl | h'
    · exact List.mem_cons_self _ _
    · exact List.mem_cons_of_mem _ (ih h')

theorem sequenceEntries_isOk (l : List (String × Outcome Json))
    (h : ∀ e ∈ l, e.2.isOk = true) : (sequenceEntries l).isOk = true := by
  induction l with
  | nil => rfl
  | cons e es ih =>
    obtain ⟨k, r⟩ := e
    have h1 := h (k, r) (List.mem_cons_self _ _)
    have h2 := ih (fun x hx => h x (List.mem_cons_of_mem _ hx))
    simp only [sequenceEntries]
    cases r with
    | ok j =>
      cases hs : sequenceEntries es with
      | ok js => rfl
      | error e => rw [hs] at h2; cases h2
      | jsonError e => rw [hs] at h2; cases h2
      | panic p => rw [hs] at h2; cases h2
    | error e => cases h1
    | jsonError e => cases h1
    | panic p => cases h1

theorem Outcome.isOk_map {α β : Type} (r : Outcome α) (f : α → β) :
    (r.map f).isOk = r.isOk := by
  cases r <;> rfl

theorem Outcome.isOk_iff {α : Type} (r : Outcome α) : r.isOk = true ↔ ∃ a, r = .ok a := by
  cases r <;> simp [Outcome.isOk]

theorem marshalLeaves_append_isOk (l₁ l₂ : List leafQuery)
    (h₁ : (marshalLeaves l₁).isOk = true) (h₂ : (marshalLeaves l₂).isOk = true) :
    (marshalLeaves (l₁ ++ l₂)).isOk = true := by
  rw [← Outcome.isOk_void, marshalLeaves_append_void, Outcome.void_of_isOk _ h₁,
    Outcome.void_of_isOk _ h₂]
  rfl

/-- A body serializes when its leaves, its nested document and its match-all mapping do. -/
theorem body_isOk (d : QueryDoc)
    (hA : (marshalLeaves (d.And.map QueryItem.toLeaf)).isOk = true)
    (hN : (marshalLeaves (d.Not.map QueryItem.toLeaf)).isOk = true)
    (hO : (marshalLeaves (d.Or.map QueryItem.toLeaf)).isOk = true)
    (hF : (marshalLeaves (d.Filter.map QueryItem.toLeaf)).isOk = true)
    (hn : ∀ x, d.NestDoc = some x → (marshalQueryWrap (getWrappedQuery x)).isOk = true)
    (hm : ∀ mo, d.MatchAll = some mo → (marshalValue (.map mo)).isOk = true) :
    (marshalQueryWrap (getWrappedQuery d)).isOk = true := by
  have hb : (marshalOptBool (attachBool (buildBoolDoc d))).isOk = true := by
    rw [← Outcome.isOk_void, marshalOptBool_void, Outcome.isOk_void, buildBoolDoc_eq]
    exact marshalLeaves_append_isOk _ _
      (marshalLeaves_append_isOk _ _ (marshalLeaves_append_isOk _ _ hA hN) hO) hF
  have hn' : (marshalOptNested
      (d.NestDoc.map fun nd => nestedWrap.mk nd.NestPath (getWrappedQuery nd))).isOk = true := by
    cases hnd : d.NestDoc with
    | none => rw [Option.map_none', marshalOptNested]; rfl
    | some x =>
      rw [Option.map_some', marshalOptNested, Outcome.isOk_map]
      exact hn x hnd
  have hm' : (marshalOptMatchAll d.MatchAll).isOk = true := by
    cases hmd : d.MatchAll with
    | none => rfl
    | some mo =>
      unfold marshalOptMatchAll
      rw [Outcome.isOk_map]
      exact hm mo hmd
  rw [getWrappedQuery_eq, marshalQueryWrap_eq]
  obtain ⟨fb, hfb⟩ := (Outcome.isOk_iff _).1 hb
  obtain ⟨fn, hfn⟩ := (Outcome.isOk_iff _).1 hn'
  obtain ⟨fm, hfm⟩ := (Outcome.isOk_iff _).1 hm'
  rw [hfb, hfn, hfm]
  rfl

theorem MarshalJSON_wildcard_str (f s : String) :
    leafQuery.MarshalJSON (QueryItem.mk f (.str s) Wildcard none).toLeaf
      = .ok (Json.obj [("wildcard", Json.obj [(f, Json.str (goToLower s))])]) := by
  have hn : Wildcard ≠ Nested := by decide
  have hq : Wildcard ≠ QueryString := by decide
  have hs : QueryType.String Wildcard = .ok "wildcard" := by decide
  rw [MarshalJSON_of_resolved _ "wildcard" hn hs, leafQuery.handleMarshalType]
  simp only [QueryItem.toLeaf, QueryItem.«Type», QueryItem.Field, QueryItem.Value,
    QueryItem.NestedDoc]
  rw [lowerWildcard_str, if_neg hq]
  simp only []
  rw [marshalValue_wrap, marshalValue_str]
  rfl

theorem MarshalJSON_wildcard_other (f : String) (v : GoValue) (hv : ∀ s, v ≠ .str s) :
    leafQuery.MarshalJSON (QueryItem.mk f v Wildcard none).toLeaf
      = (marshalValue v).map (fun j => Json.obj [("wildcard", Json.obj [(f, j)])]) := by
  have hn : Wildcard ≠ Nested := by decide
  have hq : Wildcard ≠ QueryString := by decide
  have hs : QueryType.String Wildcard = .ok "wildcard" := by decide
  rw [MarshalJSON_of_resolved _ "wildcard" hn hs, leafQuery.handleMarshalType,
    lowerWildcard_not_str _ hv]
  simp only [QueryItem.toLeaf, QueryItem.«Type», QueryItem.Field, QueryItem.Value,
    QueryItem.NestedDoc]
  rw [if_neg hq]
  exact marshalValue_wrap _ _ _

theorem MarshalJSON_queryString_str (f s : String) (nd : Option QueryDoc) :
    leafQuery.MarshalJSON (QueryItem.mk f (.str s) QueryString nd).toLeaf
      = .ok (Json.obj [("query_string", Json.obj [("analyze_wildcard", Json.bool true),
          ("fields", Json.arr [Json.str f]),
          ("query", Json.str (sanitizeElasticQueryField s))])]) := by
  have h1 : QueryString ≠ Nested := by decide
  have h2 : QueryType.String QueryString = .ok "query_string" := by decide
  have h3 : QueryString ≠ Wildcard := by decide
  rw [MarshalJSON_of_resolved _ "query_string" h1 h2, leafQuery.handleMarshalType]
  simp only [QueryItem.toLeaf, QueryItem.«Type», QueryItem.Field, QueryItem.Value,
    QueryItem.NestedDoc]
  rw [lowerWildcard_of_ne _ h3, if_pos rfl, handleMarshalQueryString_str]

theorem marshalValue_doc_isOk (d : QueryDoc) :
    (marshalValue (.doc d)).isOk = (marshalQueryWrap (getWrappedQuery d)).isOk := by
  rw [marshalValue, QueryDoc.MarshalJSON, Outcome.isOk_map]

/-- An item serializes when its tag is one of the eight values, a `QueryString` item holds a
text, a `Nested` item holds a document, and its value and its nested document serialize. -/
theorem item_isOk (f : String) (v : GoValue) (t : QueryType) (nd : Option QueryDoc)
    (h0 : 0 ≤ t) (h7 : t ≤ 7) (hq : t = QueryString → v.isStr = true)
    (hnes : t = Nested → v.isDoc = true) (hv : (marshalValue v).isOk = true)
    (hnd : ∀ x, nd = some x → (marshalQueryWrap (getWrappedQuery x)).isOk = true) :
    (leafQuery.MarshalJSON (QueryItem.mk f v t nd).toLeaf).isOk = true := by
  have plain : ∀ t' : QueryType, t' ∈ [Match, Term, Terms, Range, Exists] → t = t' →
      (leafQuery.MarshalJSON (QueryItem.mk f v t nd).toLeaf).isOk = true := by
    intro t' ht' e
    subst e
    cases nd with
    | some x =>
      rw [MarshalJSON_nestedDoc f v t x (by
        simp only [List.mem_cons, List.mem_singleton, List.not_mem_nil, or_false] at ht' ⊢
        tauto), Outcome.isOk_map]
      exact hnd x rfl
    | none =>
      have hname : ∃ name, QueryType.String t = .ok name := by
        simp only [List.mem_cons, List.mem_singleton, List.not_mem_nil, or_false] at ht'
        rcases ht' with rfl | rfl | rfl | rfl | rfl
        · exact ⟨"match", by decide⟩
        · exact ⟨"term", by decide⟩
        · exact ⟨"terms", by decide⟩
        · exact ⟨"range", by decide⟩
        · exact ⟨"exists", by decide⟩
      obtain ⟨name, hname⟩ := hname
      rw [MarshalJSON_default_shape f v t name ht' hname, Outcome.isOk_map]
      exact hv
  have ht : t = 0 ∨ t = 1 ∨ t = 2 ∨ t = 3 ∨ t = 4 ∨ t = 5 ∨ t = 6 ∨ t = 7 := by
    have key : ∀ z : Int, 0 ≤ z → z ≤ 7 →
        z = 0 ∨ z = 1 ∨ z = 2 ∨ z = 3 ∨ z = 4 ∨ z = 5 ∨ z = 6 ∨ z = 7 := by
      intro z a b
      omega
    exact key t h0 h7
  rcases ht with e | e | e | e | e | e | e | e
  · exact plain Match (by decide) e
  · exact plain Term (by decide) e
  · exact plain Terms (by decide) e
  · subst e
    cases nd with
    | some x =>
      rw [MarshalJSON_nestedDoc f v 3 x (by decide), Outcome.isOk_map]
      exact hnd x rfl
    | none =>
      by_cases hstr : ∃ s, v = .str s
      · obtain ⟨s, rfl⟩ := hstr
        rw [show (3 : QueryType) = Wildcard from rfl, MarshalJSON_wildcard_str]
        rfl
      · rw [show (3 : QueryType) = Wildcard from rfl,
          MarshalJSON_wildcard_other f v (fun s hs => hstr ⟨s, hs⟩), Outcome.isOk_map]
        exact hv
  · exact plain Range (by decide) e
  · exact plain Exists (by decide) e
  · subst e
    have hs := hq rfl
    cases v with
    | str s =>
      rw [show (6 : QueryType) = QueryString from rfl, MarshalJSON_queryString_str]
      rfl
    | _ => cases hs
  · subst e
    have hd := hnes rfl
    cases v with
    | doc d =>
      rw [show (7 : QueryType) = Nested from rfl]
      simp only [QueryItem.toLeaf, QueryItem.«Type», QueryItem.Field, QueryItem.Value,
        QueryItem.NestedDoc]
      rw [MarshalJSON_nested_value, ← marshalValue_doc_isOk]
      exact hv
    | _ => cases hd

mutual

theorem wellTyped_value_isOk : ∀ v : GoValue, v.wellTyped true = true →
    (marshalValue v).isOk = true
  | .null, _ => by rw [marshalValue]; rfl
  | .bool _, _ => by rw [marshalValue]; rfl
  | .int _, _ => by rw [marshalValue]; rfl
  | .str _, _ => by rw [marshalValue]; rfl
  | .list xs, h => by
    rw [marshalValue, Outcome.isOk_map]
    exact wellTyped_values_isOk xs (by simpa [GoValue.wellTyped] using h)
  | .map m, h => by
    rw [marshalValue, Outcome.isOk_map]
    apply sequenceEntries_isOk
    intro e he
    exact wellTyped_entries_isOk m (by simpa [GoValue.wellTyped] using h) e
      (mem_sortEntries _ _ he)
  | .doc d, h => by
    rw [marshalValue_doc_isOk]
    exact wellTyped_doc_isOk d (by simpa [GoValue.wellTyped] using h)
  | .other r, h => by
    rw [marshalValue]
    simpa [GoValue.wellTyped] using h

theorem wellTyped_values_isOk : ∀ xs : List GoValue, valuesWellTyped true xs = true →
    (marshalValues xs).isOk = true
  | [], _ => by rw [marshalValues]; rfl
  | x :: xs, h => by
    simp only [valuesWellTyped, Bool.and_eq_true] at h
    have h1 := wellTyped_value_isOk x h.1
    have h2 := wellTyped_values_isOk xs h.2
    obtain ⟨j, hj⟩ := (Outcome.isOk_iff _).1 h1
    obtain ⟨js, hjs⟩ := (Outcome.isOk_iff _).1 h2
    rw [marshalValues, hj, hjs]
    rfl

theorem wellTyped_entries_isOk : ∀ m : List (String × GoValue),
    entriesWellTyped true m = true → ∀ e ∈ marshalEntries m, e.2.isOk = true
  | [], _ => by
    intro e he
    rw [marshalEntries] at he
    cases he
  | (k, v) :: rest, h => by
    simp only [entriesWellTyped, Bool.and_eq_true] at h
    intro e he
    rw [marshalEntries] at he
    rcases List.mem_cons.1 he with rfl | he'
    · exact wellTyped_value_isOk v h.1
    · exact wellTyped_entries_isOk rest h.2 e he'

theorem wellTyped_doc_isOk : ∀ d : QueryDoc, d.wellTyped true = true →
    (marshalQueryWrap (getWrappedQuery d)).isOk = true
  | .mk ix fr sz so sa a n o f ps np nd m tth, h => by
    simp only [QueryDoc.wellTyped, Bool.and_eq_true] at h
    obtain ⟨⟨⟨⟨⟨ha, hn⟩, ho⟩, hf⟩, hnd⟩, hm⟩ := h
    apply body_isOk
    · exact wellTyped_items_isOk a ha
    · exact wellTyped_items_isOk n hn
    · exact wellTyped_items_isOk o ho
    · exact wellTyped_items_isOk f hf
    · intro x hx
      exact wellTyped_optDoc_isOk nd hnd x hx
    · intro mo hmo
      rw [marshalValue, Outcome.isOk_map]
      apply sequenceEntries_isOk
      intro e he
      exact wellTyped_optEntries_isOk m hm mo hmo e (mem_sortEntries _ _ he)

theorem wellTyped_optDoc_isOk : ∀ nd : Option QueryDoc, optDocWellTyped true nd = true →
    ∀ x, nd = some x → (marshalQueryWrap (getWrappedQuery x)).isOk = true
  | none, _ => by intro x hx; cases hx
  | some d, h => by
    intro x hx
    cases hx
    exact wellTyped_doc_isOk d (by simpa [optDocWellTyped] using h)

theorem wellTyped_optEntries_isOk : ∀ m : Option (List (String × GoValue)),
    optEntriesWellTyped true m = true →
    ∀ mo, m = some mo → ∀ e ∈ marshalEntries mo, e.2.isOk = true
  | none, _ => by intro mo hmo; cases hmo
  | some l, h => by
    intro mo hmo
    cases hmo
    exact wellTyped_entries_isOk l (by simpa [optEntriesWellTyped] using h)

theorem wellTyped_items_isOk : ∀ l : List QueryItem, itemsWellTyped true l = true →
    (marshalLeaves (l.map QueryItem.toLeaf)).isOk = true
  | [], _ => by rw [List.map_nil, marshalLeaves]; rfl
  | x :: xs, h => by
    simp only [itemsWellTyped, Bool.and_eq_true] at h
    have h1 := wellTyped_item_isOk x h.1
    have h2 := wellTyped_items_isOk xs h.2
    rw [List.map_cons, ← Outcome.isOk_void, marshalLeaves_cons_void,
      Outcome.void_of_isOk _ h1, Outcome.void_of_isOk _ h2]
    rfl

theorem wellTyped_item_isOk : ∀ it : QueryItem, it.wellTyped true = true →
    (leafQuery.MarshalJSON it.toLeaf).isOk = true
  | .mk f v t nd, h => by
    simp only [QueryItem.wellTyped, Bool.and_eq_true, Bool.or_eq_true, decide_eq_true_eq,
      Bool.not_true, Bool.false_eq_true, false_or] at h
    obtain ⟨⟨⟨⟨⟨h0, h7⟩, hq⟩, hnes⟩, hv⟩, hnd⟩ := h
    exact item_isOk f v t nd h0 h7
      (fun e => by
        rcases hq with hq | hq
        · exact absurd e hq
        · exact hq)
      (fun e => by
        rcases hnes with hnes | hnes
        · exact absurd e hnes
        · exact hnes)
      (wellTyped_value_isOk v hv)
      (wellTyped_optDoc_isOk nd hnd)

end

theorem marshalValue_other (r : Outcome Json) : marshalValue (.other r) = r := by
  rw [marshalValue]

theorem marshalValue_bogusQueryDoc :
    marshalValue (.doc bogusQueryDoc) = .error { typeVal := 100001 } := by
  rw [marshalValue]
  simp [QueryDoc.MarshalJSON, bogusQueryDoc, getWrappedQuery, buildBoolDoc, attachBool,
    updateList, marshalQueryWrap, marshalOptBool, marshalLeafField, marshalLeaves,
    leafQuery.MarshalJSON, Nested, QueryType.String, convs, Outcome.bind, Outcome.map]

theorem nestedWithoutValueDoc_panics :
    jsonMarshal nestedWithoutValueDoc = .panic (.interfaceConversion "QueryDoc") := by
  unfold jsonMarshal
  simp [QueryDoc.MarshalJSON, nestedWithoutValueDoc, getWrappedQuery, buildBoolDoc, attachBool,
    updateList, marshalQueryWrap, marshalOptBool, marshalLeafField, marshalLeaves,
    leafQuery.MarshalJSON, Nested, Outcome.bind, Outcome.map]

theorem nanTermDoc_error :
    jsonMarshal nanTermDoc = .jsonError (.unsupportedValue "NaN") := by
  have hleaf : leafQuery.MarshalJSON (QueryItem.mk "price" nanValue Term none).toLeaf
      = .jsonError (.unsupportedValue "NaN") := by
    rw [MarshalJSON_default_shape "price" nanValue Term "term" (by decide) (by decide),
      nanValue, marshalValue_other]
    rfl
  unfold jsonMarshal
  rw [QueryDoc.MarshalJSON, nanTermDoc, getWrappedQuery_eq]
  simp only [buildBoolDoc, attachBool, QueryDoc.And, QueryDoc.Not, QueryDoc.Or, QueryDoc.Filter,
    QueryDoc.NestDoc, QueryDoc.MatchAll, updateList_eq_map, List.map_cons, List.map_nil]
  simp [marshalQueryWrap_eq, marshalOptBool, marshalLeafField, marshalLeaves, hleaf,
    Outcome.bind, Outcome.map]

theorem Outcome.not_isOk_cases {α : Type} (r : Outcome α) (h : r.isOk = false) :
    (∃ err, r.returnedError = some err) ∨ ∃ p, r = .panic p := by
  cases r with
  | ok a => cases h
  | error e => exact Or.inl ⟨_, rfl⟩
  | jsonError e => exact Or.inl ⟨_, rfl⟩
  | panic p => exact Or.inr ⟨p, rfl⟩

/-! ## The claims -/

/-- C1 (as stated) fails: the second clause of the document has the unsupported type 100001,
but the first clause, a `query_string` with a number as value, panics at the type assertion
before the second is reached, so the call does not return a `QueryTypeErr`. -/
theorem c1_counterexample :
    QueryItem.«Type» (.mk "some_index_id" (.str "some-long-key-id-value") 100001 none) = 100001
      ∧ QueryType.String 100001 = .error { typeVal := 100001 }
      ∧ numberThenBogusDoc.And
          = [.mk "user.id" (.int 42) QueryString none,
             .mk "some_index_id" (.str "some-long-key-id-value") 100001 none]
      ∧ jsonMarshal numberThenBogusDoc = .panic (.interfaceConversion "string")
      ∧ jsonMarshal numberThenBogusDoc ≠ .error { typeVal := 100001 } := by
  refine ⟨rfl, by decide, rfl, ?_, ?_⟩
  · unfold jsonMarshal; rw [numberThenBogusDoc_tree]; rfl
  · unfold jsonMarshal; rw [numberThenBogusDoc_tree]; simp [Outcome.map]

/-- C1 (amended): when an item of the four lists has an ordinal greater than 8, serialization
returns no bytes; and when every item before it, in the order And, Not, Or, Filter,
serializes successfully, it fails with the `QueryTypeErr` carrying that item's ordinal. -/
theorem c1_unresolvable_tag_aborts (d : QueryDoc) (it : QueryItem)
    (hmem : it ∈ d.And ++ d.Not ++ d.Or ++ d.Filter) (hbad : it.«Type» > 8) :
    (jsonMarshal d).isOk = false
      ∧ ∀ pre post : List QueryItem, d.And ++ d.Not ++ d.Or ++ d.Filter = pre ++ it :: post →
          (∀ x ∈ pre, (leafQuery.MarshalJSON x.toLeaf).isOk = true) →
          jsonMarshal d = .error { typeVal := it.«Type» } := by
  have hleaf : leafQuery.MarshalJSON it.toLeaf = .error { typeVal := it.«Type» } := by
    have := MarshalJSON_of_gt it.toLeaf (by cases it; exact hbad)
    cases it; exact this
  constructor
  · have h1 : (marshalLeaves ((d.And ++ d.Not ++ d.Or ++ d.Filter).map QueryItem.toLeaf)).isOk
        = false :=
      marshalLeaves_isOk_false_of_mem _ it.toLeaf (List.mem_map_of_mem _ hmem)
        (by rw [hleaf]; rfl)
    rw [← leaves_of_doc, ← Outcome.isOk_void, ← marshalOptBool_void, Outcome.isOk_void] at h1
    have h2 := marshalQueryWrap_isOk_of_bool _
      (d.NestDoc.map fun nd => nestedWrap.mk nd.NestPath (getWrappedQuery nd)) d.MatchAll h1
    rw [← getWrappedQuery_eq] at h2
    unfold jsonMarshal
    rw [QueryDoc.MarshalJSON]
    cases hq : marshalQueryWrap (getWrappedQuery d) <;> simp_all [Outcome.map, Outcome.isOk]
  · intro pre post hsplit hpre
    have h1 : (marshalLeaves ((d.And ++ d.Not ++ d.Or ++ d.Filter).map QueryItem.toLeaf)).void
        = .error { typeVal := it.«Type» } := by
      rw [hsplit, List.map_append, List.map_cons,
        marshalLeaves_first_failure _ _ _ (by
          intro x hx
          obtain ⟨y, hy, rfl⟩ := List.mem_map.1 hx
          exact hpre y hy), hleaf]
      rfl
    rw [← leaves_of_doc, ← marshalOptBool_void] at h1
    have h2 := marshalQueryWrap_void_of_bool_error _
      (d.NestDoc.map fun nd => nestedWrap.mk nd.NestPath (getWrappedQuery nd)) d.MatchAll _ h1
    rw [← getWrappedQuery_eq] at h2
    unfold jsonMarshal
    rw [QueryDoc.MarshalJSON, h2]
    rfl

/-- C1 (amended) on the document of `TestBogusQueryType`. -/
theorem c1_unresolvable_tag_aborts_witness :
    (jsonMarshal bogusQueryDoc).isOk = false
      ∧ jsonMarshal bogusQueryDoc = .error { typeVal := 100001 } :=
  have h := c1_unresolvable_tag_aborts bogusQueryDoc
    (.mk "some_index_id" (.str "some-long-key-id-value") 100001 none)
    (by simp [bogusQueryDoc]) (by decide)
  ⟨h.1, h.2 [] [] (by simp [bogusQueryDoc]) (by simp)⟩

/-- C2: the guard of `QueryType.String` is `int(qt) > len(convs)`, so the ordinal 8, equal to
the length of the table, passes the guard and the index expression `convs[8]` panics: the
conversion of this out-of-range ordinal is a crash, not a `QueryTypeErr`. -/
theorem c2_string_of_eight_panics :
    QueryType.String 8 = .panic (.indexOutOfRange 8 8) := by
  decide

/-- C3: each of the eight valid tags (ordinals 0 to 7) converts without error to its fixed
name, and the eight names are pairwise distinct. -/
theorem c3_valid_tags_resolve :
    QueryType.String Match = .ok "match" ∧ QueryType.String Term = .ok "term"
      ∧ QueryType.String Terms = .ok "terms" ∧ QueryType.String Wildcard = .ok "wildcard"
      ∧ QueryType.String Range = .ok "range" ∧ QueryType.String Exists = .ok "exists"
      ∧ QueryType.String QueryString = .ok "query_string"
      ∧ QueryType.String Nested = .ok "nested"
      ∧ [Match, Term, Terms, Wildcard, Range, Exists, QueryString, Nested]
          = [0, 1, 2, 3, 4, 5, 6, 7]
      ∧ convs.Nodup := by
  decide

/-- C4 (as stated) fails: a `term` clause without nested document whose value is
`math.NaN()` does not serialize to the one-key object: `json.Marshal` rejects the value and
the clause returns that error; and a `term` clause whose value is the document of
`TestBogusQueryType` returns that document's `QueryTypeErr`. -/
theorem c4_counterexample :
    leafQuery.MarshalJSON (QueryItem.mk "price" nanValue Term none).toLeaf
        = .jsonError (.unsupportedValue "NaN")
      ∧ leafQuery.MarshalJSON (QueryItem.mk "sub" (.doc bogusQueryDoc) Term none).toLeaf
        = .error { typeVal := 100001 } := by
  constructor
  · rw [MarshalJSON_default_shape "price" nanValue Term "term" (by decide) (by decide),
      nanValue, marshalValue_other]
    rfl
  · rw [MarshalJSON_default_shape "sub" (.doc bogusQueryDoc) Term "term" (by decide)
      (by decide), marshalValue_bogusQueryDoc]
    rfl

/-- C4 (amended): an item without nested document whose tag is match, term, terms, range or
exists serializes as `json.Marshal` of its value does: when the value encodes, the item is
the one-key object of its type name holding the one-key object of its field and the encoding
of the value, and when the value does not encode the item fails in the same way; a plain
data value is emitted unchanged; and the document of `TestAndQuery` serializes to the
expected bytes. -/
theorem c4_default_leaf_shape :
    (∀ (field : String) (value : GoValue) (t : QueryType) (name : String),
        t ∈ [Match, Term, Terms, Range, Exists] → QueryType.String t = .ok name →
        leafQuery.MarshalJSON (QueryItem.mk field value t none).toLeaf
            = (marshalValue value).map (fun j => Json.obj [(name, Json.obj [(field, j)])])
          ∧ (∀ j, marshalValue value = .ok j →
              leafQuery.MarshalJSON (QueryItem.mk field value t none).toLeaf
                = .ok (Json.obj [(name, Json.obj [(field, j)])]))
          ∧ (value.isData = true →
              leafQuery.MarshalJSON (QueryItem.mk field value t none).toLeaf
                = .ok (Json.obj [(name, Json.obj [(field, value.toJson)])])))
      ∧ jsonMarshal andQueryDoc
          = .ok ("\x7b\"query\":\x7b\"bool\":\x7b\"must\":[\x7b\"match\":\x7b\"some_index_id\":"
              ++ "\"some-long-key-id-value\"\x7d\x7d]\x7d\x7d,\"sort\":[\x7b\"id\":\"asc\"\x7d]\x7d") := by
  constructor
  · intro field value t name ht hs
    have h := MarshalJSON_default_shape field value t name ht hs
    refine ⟨h, fun j hj => ?_, fun hd => ?_⟩
    · rw [h, hj]
      rfl
    · rw [h, marshalValue_data value hd]
      rfl
  · unfold jsonMarshal
    rw [andQueryDoc_tree]
    decide

/-- C4 (amended) on the clause of `TestAndQuery`. -/
theorem c4_default_leaf_shape_witness :
    leafQuery.MarshalJSON
        (QueryItem.mk "some_index_id" (.str "some-long-key-id-value") Match none).toLeaf
      = .ok (Json.obj [("match", Json.obj [("some_index_id",
          Json.str "some-long-key-id-value")])]) :=
  (c4_default_leaf_shape.1 "some_index_id" (.str "some-long-key-id-value") Match "match"
    (by decide) (by decide)).2.2 rfl

/-- C5: the resolved body has a `bool` container exactly when one of And, Not, Or, Filter is
non-empty; the keys inside it are those of the non-empty lists, in the order must, must_not,
should, filter, and every array under them is non-empty. -/
theorem c5_bool_container (d : QueryDoc) :
    ((getWrappedQuery d).Bool.isSome = true
        ↔ (d.And ≠ [] ∨ d.Not ≠ [] ∨ d.Or ≠ [] ∨ d.Filter ≠ []))
      ∧ ∀ j, marshalQueryWrap (getWrappedQuery d) = .ok j →
          ((j.field "bool").isSome = true
              ↔ (d.And ≠ [] ∨ d.Not ≠ [] ∨ d.Or ≠ [] ∨ d.Filter ≠ []))
            ∧ ∀ b, j.field "bool" = some b →
                ∃ kvs, b = Json.obj kvs ∧ kvs.map Prod.fst = boolKeys d
                  ∧ ∀ kv ∈ kvs, ∃ js, kv.2 = Json.arr js ∧ js ≠ [] := by
  constructor
  · exact body_has_bool_iff d
  · intro j hj
    obtain ⟨jsA, jsN, jsO, jsF, fn, fm, hA, hN, hO, hF, hn, hm, rfl⟩ := body_shape d j hj
    have hn' : fn = [] ∨ ∃ v, fn = [("nested", v)] := by
      cases hnd : d.NestDoc with
      | none => exact Or.inl (hn.1 hnd)
      | some x =>
        obtain ⟨jq, _, h⟩ := hn.2 x hnd
        exact Or.inr ⟨_, h⟩
    have hm' : fm = [] ∨ ∃ v, fm = [("match_all", v)] := by
      cases hmd : d.MatchAll with
      | none => exact Or.inl (hm.1 hmd)
      | some x =>
        obtain ⟨jm, _, h⟩ := hm.2 x hmd
        exact Or.inr ⟨_, h⟩
    rw [body_field_bool _ _ _ hn' hm']
    have eA := isEmpty_of_marshalLeaves _ _ hA
    have eN := isEmpty_of_marshalLeaves _ _ hN
    have eO := isEmpty_of_marshalLeaves _ _ hO
    have eF := isEmpty_of_marshalLeaves _ _ hF
    constructor
    · unfold boolFields
      rw [eA, eN, eO, eF]
      obtain ⟨ix, fr, sz, so, sa, a, n, o, f, ps, np, nest, m, tth⟩ := d
      cases a <;> cases n <;> cases o <;> cases f <;> simp [List.lookup]
    · intro b hb
      unfold boolFields at hb
      split at hb
      · simp [List.lookup] at hb
      · simp only [List.lookup, beq_self_eq_true, Option.some.injEq] at hb
        subst hb
        refine ⟨_, rfl, ?_, ?_⟩
        · unfold leafField boolKeys
          rw [eA, eN, eO, eF]
          obtain ⟨ix, fr, sz, so, sa, a, n, o, f, ps, np, nest, m, tth⟩ := d
          cases a <;> cases n <;> cases o <;> cases f <;> simp
        · intro kv hkv
          simp only [List.mem_append] at hkv
          rcases hkv with ((h | h) | h) | h
          · exact ⟨_, (mem_leafField _ _ _ h).1 ▸ rfl, (mem_leafField _ _ _ h).2⟩
          · exact ⟨_, (mem_leafField _ _ _ h).1 ▸ rfl, (mem_leafField _ _ _ h).2⟩
          · exact ⟨_, (mem_leafField _ _ _ h).1 ▸ rfl, (mem_leafField _ _ _ h).2⟩
          · exact ⟨_, (mem_leafField _ _ _ h).1 ▸ rfl, (mem_leafField _ _ _ h).2⟩

/-- C5 on the document of `TestAndQuery`: the `bool` container holds the key must alone. -/
theorem c5_bool_container_witness :
    ∃ kvs : List (String × Json), kvs.map Prod.fst = ["must"]
      ∧ ∀ kv ∈ kvs, ∃ js, kv.2 = Json.arr js ∧ js ≠ [] := by
  obtain ⟨kvs, _, hk, hv⟩ := ((c5_bool_container andQueryDoc).2 _ andQueryDoc_body).2 _ rfl
  exact ⟨kvs, hk, hv⟩

set_option maxRecDepth 20000 in
/-- C6: `updateList` copies the items one by one in order, and in every serialized body the
array under must (must_not, should, filter) has the length of And (Not, Or, Filter) and its
i-th element is the serialization of the i-th item; the document of `TestFilterQuery`
serializes to the expected bytes. -/
theorem c6_clause_order_preserved :
    (∀ items : List QueryItem,
        (updateList items).length = items.length
          ∧ List.Forall₂
              (fun it q => q.«Type» = it.«Type» ∧ q.Name = it.Field ∧ q.Value = it.Value
                ∧ q.NestedDoc = it.NestedDoc)
              items (updateList items))
      ∧ (∀ (d : QueryDoc) (j b : Json), marshalQueryWrap (getWrappedQuery d) = .ok j →
          j.field "bool" = some b →
          ∃ must mustNot should filter : List Json,
            (must.length = d.And.length
                ∧ List.Forall₂ (fun it e => leafQuery.MarshalJSON it.toLeaf = .ok e) d.And must
                ∧ (d.And ≠ [] → b.field "must" = some (Json.arr must)))
              ∧ (mustNot.length = d.Not.length
                ∧ List.Forall₂ (fun it e => leafQuery.MarshalJSON it.toLeaf = .ok e) d.Not
                    mustNot
                ∧ (d.Not ≠ [] → b.field "must_not" = some (Json.arr mustNot)))
              ∧ (should.length = d.Or.length
                ∧ List.Forall₂ (fun it e => leafQuery.MarshalJSON it.toLeaf = .ok e) d.Or should
                ∧ (d.Or ≠ [] → b.field "should" = some (Json.arr should)))
              ∧ (filter.length = d.Filter.length
                ∧ List.Forall₂ (fun it e => leafQuery.MarshalJSON it.toLeaf = .ok e) d.Filter
                    filter
                ∧ (d.Filter ≠ [] → b.field "filter" = some (Json.arr filter))))
      ∧ jsonMarshal filterQueryDoc
          = .ok ("\x7b\"query\":\x7b\"bool\":\x7b\"must\":[\x7b\"match\":\x7b\"title\":\"Search\"\x7d\x7d,"
              ++ "\x7b\"match\":\x7b\"content\":\"Elasticsearch\"\x7d\x7d],"
              ++ "\"filter\":[\x7b\"term\":\x7b\"status\":\"published\"\x7d\x7d,"
              ++ "\x7b\"range\":\x7b\"publish_date\":\x7b\"gte\":\"2015-01-01\"\x7d\x7d\x7d]\x7d\x7d\x7d") := by
  refine ⟨fun items => ⟨by rw [updateList_eq_map, List.length_map], updateList_forall₂ items⟩,
    ?_, ?_⟩
  · intro d j b hj hb
    obtain ⟨jsA, jsN, jsO, jsF, fn, fm, hA, hN, hO, hF, hn, hm, rfl⟩ := body_shape d j hj
    have hn' : fn = [] ∨ ∃ v, fn = [("nested", v)] := by
      cases hnd : d.NestDoc with
      | none => exact Or.inl (hn.1 hnd)
      | some x =>
        obtain ⟨jq, _, h⟩ := hn.2 x hnd
        exact Or.inr ⟨_, h⟩
    have hm' : fm = [] ∨ ∃ v, fm = [("match_all", v)] := by
      cases hmd : d.MatchAll with
      | none => exact Or.inl (hm.1 hmd)
      | some x =>
        obtain ⟨jm, _, h⟩ := hm.2 x hmd
        exact Or.inr ⟨_, h⟩
    rw [body_field_bool _ _ _ hn' hm'] at hb
    unfold boolFields at hb
    split at hb
    · simp [List.lookup] at hb
    · simp only [List.lookup, beq_self_eq_true, Option.some.injEq] at hb
      subst hb
      have hl := leafField_lookup jsA jsN jsO jsF
      have key : ∀ (items : List QueryItem) (js : List Json),
          marshalLeaves (items.map QueryItem.toLeaf) = .ok js → items ≠ [] →
          js.isEmpty = false := by
        intro items js h hne
        rw [isEmpty_of_marshalLeaves _ _ h]
        cases items with
        | nil => exact absurd rfl hne
        | cons x xs => rfl
      refine ⟨jsA, jsN, jsO, jsF, ⟨?_, marshalLeaves_map_forall₂ _ _ hA, fun hne => ?_⟩,
        ⟨?_, marshalLeaves_map_forall₂ _ _ hN, fun hne => ?_⟩,
        ⟨?_, marshalLeaves_map_forall₂ _ _ hO, fun hne => ?_⟩,
        ⟨?_, marshalLeaves_map_forall₂ _ _ hF, fun hne => ?_⟩⟩
      · rw [marshalLeaves_ok_length _ _ hA, List.length_map]
      · simp only [Json.field]; rw [hl.1, key _ _ hA hne]; rfl
      · rw [marshalLeaves_ok_length _ _ hN, List.length_map]
      · simp only [Json.field]; rw [hl.2.1, key _ _ hN hne]; rfl
      · rw [marshalLeaves_ok_length _ _ hO, List.length_map]
      · simp only [Json.field]; rw [hl.2.2.1, key _ _ hO hne]; rfl
      · rw [marshalLeaves_ok_length _ _ hF, List.length_map]
      · simp only [Json.field]; rw [hl.2.2.2, key _ _ hF hne]; rfl
  · rw [jsonMarshal_of_body _ _ filterQueryDoc_body]
    decide

/-- C6 on the document of `TestFilterQuery`: two clauses under must, two under filter. -/
theorem c6_clause_order_preserved_witness :
    ∃ must filter : List Json, must.length = 2 ∧ filter.length = 2
      ∧ List.Forall₂ (fun it e => leafQuery.MarshalJSON it.toLeaf = .ok e)
          filterQueryDoc.And must
      ∧ List.Forall₂ (fun it e => leafQuery.MarshalJSON it.toLeaf = .ok e)
          filterQueryDoc.Filter filter := by
  obtain ⟨must, _, _, filter, hm, _, _, hf⟩ :=
    c6_clause_order_preserved.2.1 filterQueryDoc _ _ filterQueryDoc_body rfl
  exact ⟨must, filter, hm.1, hf.1, hm.2.1, hf.2.1⟩

set_option maxRecDepth 20000 in
/-- C7: when the document-level `NestDoc` is present, the resolved body has a `nested` member
whose path is `NestDoc.NestPath` and whose query is the resolved body of `NestDoc`; in the
serialized body it stands right after the `bool` member when a list is non-empty (first when
all are empty), as a sibling: the `bool` object holds only must, must_not, should, filter and
the `nested` object only path and query.  The first document of `TestNestedQuery` serializes
to the expected bytes. -/
theorem c7_document_level_nested :
    (∀ d nd : QueryDoc, d.NestDoc = some nd →
        (getWrappedQuery d).Nested = some (nestedWrap.mk nd.NestPath (getWrappedQuery nd))
          ∧ ((d.And ≠ [] ∨ d.Not ≠ [] ∨ d.Or ≠ [] ∨ d.Filter ≠ []) →
              (getWrappedQuery d).Bool.isSome = true)
          ∧ ∀ j, marshalQueryWrap (getWrappedQuery d) = .ok j →
              ∃ jq rest, marshalQueryWrap (getWrappedQuery nd) = .ok jq
                ∧ (rest = [] ∨ ∃ jm, rest = [("match_all", jm)])
                ∧ ((d.And ≠ [] ∨ d.Not ≠ [] ∨ d.Or ≠ [] ∨ d.Filter ≠ []) →
                    ∃ kvs, kvs.map Prod.fst = boolKeys d
                      ∧ j = Json.obj (("bool", Json.obj kvs)
                          :: ("nested", Json.obj [("path", Json.str nd.NestPath), ("query", jq)])
                          :: rest))
                ∧ ((d.And = [] ∧ d.Not = [] ∧ d.Or = [] ∧ d.Filter = []) →
                    j = Json.obj (("nested",
                          Json.obj [("path", Json.str nd.NestPath), ("query", jq)]) :: rest)))
      ∧ jsonMarshal nestedQueryDoc
          = .ok ("\x7b\"query\":\x7b\"bool\":\x7b\"must\":[\x7b\"term\":\x7b\"user.country\":1001\x7d\x7d,"
              ++ "\x7b\"bool\":\x7b\"must\":[\x7b\"term\":\x7b\"date.year\":2001\x7d\x7d,"
              ++ "\x7b\"term\":\x7b\"date.month\":1002\x7d\x7d]\x7d\x7d]\x7d,"
              ++ "\"nested\":\x7b\"path\":\"hello\",\"query\":\x7b\"bool\":\x7b\"must\":["
              ++ "\x7b\"term\":\x7b\"name\":\"name1\"\x7d\x7d,"
              ++ "\x7b\"term\":\x7b\"password\":\"password1\"\x7d\x7d]\x7d\x7d\x7d\x7d\x7d") := by
  constructor
  · intro d nd hnd
    refine ⟨?_, ?_, ?_⟩
    · rw [getWrappedQuery_eq, queryWrap.Nested, hnd]; rfl
    · exact (body_has_bool_iff d).2
    · intro j hj
      obtain ⟨jsA, jsN, jsO, jsF, fn, fm, hA, hN, hO, hF, hn, hm, rfl⟩ := body_shape d j hj
      obtain ⟨jq, hq, rfl⟩ := hn.2 nd hnd
      have hm' : fm = [] ∨ ∃ v, fm = [("match_all", v)] := by
        cases hmd : d.MatchAll with
        | none => exact Or.inl (hm.1 hmd)
        | some x =>
          obtain ⟨jm, _, h⟩ := hm.2 x hmd
          exact Or.inr ⟨_, h⟩
      have eA := isEmpty_of_marshalLeaves _ _ hA
      have eN := isEmpty_of_marshalLeaves _ _ hN
      have eO := isEmpty_of_marshalLeaves _ _ hO
      have eF := isEmpty_of_marshalLeaves _ _ hF
      refine ⟨jq, fm, hq, hm', fun hne => ?_, fun he => ?_⟩
      · refine ⟨leafField "must" jsA ++ leafField "must_not" jsN ++ leafField "should" jsO
          ++ leafField "filter" jsF, ?_, ?_⟩
        · unfold leafField boolKeys
          rw [eA, eN, eO, eF]
          obtain ⟨ix, fr, sz, so, sa, a, n, o, f, ps, np, nest, m, tth⟩ := d
          cases a <;> cases n <;> cases o <;> cases f <;> simp
        · unfold boolFields
          rw [eA, eN, eO, eF, if_neg]
          · rfl
          · obtain ⟨ix, fr, sz, so, sa, a, n, o, f, ps, np, nest, m, tth⟩ := d
            cases a <;> cases n <;> cases o <;> cases f <;> simp_all
      · unfold boolFields
        rw [eA, eN, eO, eF, he.1, he.2.1, he.2.2.1, he.2.2.2]
        rfl
  · rw [jsonMarshal_of_body _ _ nestedQueryDoc_body]
    decide

/-- C7 on the first document of `TestNestedQuery`: path `hello` and the must list of the
nested document. -/
theorem c7_document_level_nested_witness :
    (getWrappedQuery nestedQueryDoc).Nested
      = some (nestedWrap.mk "hello" (getWrappedQuery (.mk "" 0 0 [] []
          [.mk "name" (.str "name1") Term none, .mk "password" (.str "password1") Term none]
          [] [] [] 0 "hello" none none false))) :=
  (c7_document_level_nested.1 nestedQueryDoc _ rfl).1

/-- C8: an item with type `Nested`, a nested document and no value does not serialize to the
`nested` wrapper: `MarshalJSON` tests the type first and panics at `q.Value.(QueryDoc)`; and
with type `QueryString` the nested document is ignored and the `query_string` shape is
written. -/
theorem c8_nested_doc_not_preferred :
    leafQuery.MarshalJSON
        (QueryItem.mk "" .null Nested (some (.mk "" 0 0 [] [] [] [] [] [] 0 "web" none none
          false))).toLeaf
      = .panic (.interfaceConversion "QueryDoc")
    ∧ leafQuery.MarshalJSON
        (QueryItem.mk "f" (.str "x") QueryString (some (.mk "" 0 0 [] [] [] [] [] [] 0 "web"
          none none false))).toLeaf
      = .ok (Json.obj [("query_string", Json.obj [("analyze_wildcard", Json.bool true),
          ("fields", Json.arr [Json.str "f"]), ("query", Json.str "x")])]) := by
  constructor
  · simp [QueryItem.toLeaf, leafQuery.MarshalJSON, Nested]
  · have hs : sanitizeElasticQueryField "x" = "x" := by decide
    rw [MarshalJSON_of_resolved _ "query_string" (by decide) (by decide),
      leafQuery.handleMarshalType]
    simp only [QueryItem.toLeaf, QueryItem.«Type», QueryItem.Field, QueryItem.Value,
      QueryItem.NestedDoc]
    rw [lowerWildcard_of_ne _ (by decide), if_pos rfl, handleMarshalQueryString_str, hs]

/-- C9: an item of type `query_string` with a textual value serializes to the one-key object
`query_string` holding `analyze_wildcard` (true), `fields` (the item's field alone) and
`query` (the escaped value), in that order; the document of `TestQueryStringEsc` serializes to
the expected bytes. -/
theorem c9_query_string_shape :
    (∀ f v : String,
        leafQuery.MarshalJSON (QueryItem.mk f (.str v) QueryString none).toLeaf
          = .ok (Json.obj [("query_string", Json.obj [("analyze_wildcard", Json.bool true),
              ("fields", Json.arr [Json.str f]),
              ("query", Json.str (sanitizeElasticQueryField v))])]))
      ∧ sanitizeElasticQueryField "kimchy!" = "kimchy\\!"
      ∧ jsonMarshal queryStringDoc
          = .ok ("\x7b\"query\":\x7b\"bool\":\x7b\"must\":[\x7b\"query_string\":\x7b"
              ++ "\"analyze_wildcard\":true,\"fields\":[\"user.id\"],"
              ++ "\"query\":\"kimchy\\\\!\"\x7d\x7d]\x7d\x7d\x7d") := by
  refine ⟨?_, by decide, ?_⟩
  · intro f v
    have h1 : QueryString ≠ Nested := by decide
    have h2 : QueryType.String QueryString = .ok "query_string" := by decide
    have h3 : QueryString ≠ Wildcard := by decide
    rw [MarshalJSON_of_resolved _ "query_string" h1 h2, leafQuery.handleMarshalType]
    simp only [QueryItem.toLeaf, QueryItem.«Type», QueryItem.Field, QueryItem.Value,
      QueryItem.NestedDoc]
    rw [lowerWildcard_of_ne _ h3, if_pos rfl, handleMarshalQueryString_str]
  · unfold jsonMarshal
    rw [queryStringDoc_tree]
    decide

/-- C10: for every text, `sanitizeElasticQueryField` equals the single left-to-right pass that
writes one backslash before each reserved token and copies everything else; a text containing
no reserved token is returned unchanged; and `kimchy!` becomes `kimchy\!`. -/
theorem c10_sanitize_is_single_pass :
    (∀ s : String, sanitizeElasticQueryField s = String.mk (escapeSinglePass s.data))
      ∧ (∀ s : String, (∀ tok ∈ reserved, stringsContains s tok = false) →
          sanitizeElasticQueryField s = s)
      ∧ sanitizeElasticQueryField "kimchy!" = "kimchy\\!" :=
  ⟨sanitize_eq_pass, sanitize_unchanged, by decide⟩

/-- C10 at a concrete text without reserved tokens. -/
theorem c10_sanitize_is_single_pass_witness :
    sanitizeElasticQueryField "kimchy" = "kimchy" :=
  c10_sanitize_is_single_pass.2.1 "kimchy" (by decide)

/-- C11 (as stated) fails: a wildcard clause without nested document whose value is
`math.NaN()`, a value that is not textual, is not emitted at all: `json.Marshal` rejects the
value and the clause returns that error. -/
theorem c11_counterexample :
    (∀ s, nanValue ≠ .str s)
      ∧ leafQuery.MarshalJSON (QueryItem.mk "name" nanValue Wildcard none).toLeaf
        = .jsonError (.unsupportedValue "NaN") := by
  have hv : ∀ s, nanValue ≠ .str s := fun s h => by cases h
  refine ⟨hv, ?_⟩
  rw [MarshalJSON_wildcard_other "name" nanValue hv, nanValue, marshalValue_other]
  rfl

/-- C11 (amended): a wildcard item without nested document and with a textual value
serializes with the value lowercased by `strings.ToLower`; with any other value it serializes
as `json.Marshal` of the value does: when the value encodes, its encoding is emitted as it is
(a plain data value unchanged), and when it does not, the item fails in the same way; for
match, term, terms, range and exists a textual value keeps its casing; `FOO*Bar` becomes
`foo*bar`, and letters outside ASCII are lowercased as well. -/
theorem c11_wildcard_value_lowercased :
    (∀ f s : String,
        leafQuery.MarshalJSON (QueryItem.mk f (.str s) Wildcard none).toLeaf
          = .ok (Json.obj [("wildcard", Json.obj [(f, Json.str (goToLower s))])]))
      ∧ (∀ (f : String) (v : GoValue), (∀ s, v ≠ .str s) →
          leafQuery.MarshalJSON (QueryItem.mk f v Wildcard none).toLeaf
              = (marshalValue v).map (fun j => Json.obj [("wildcard", Json.obj [(f, j)])])
            ∧ (∀ j, marshalValue v = .ok j →
                leafQuery.MarshalJSON (QueryItem.mk f v Wildcard none).toLeaf
                  = .ok (Json.obj [("wildcard", Json.obj [(f, j)])]))
            ∧ (v.isData = true →
                leafQuery.MarshalJSON (QueryItem.mk f v Wildcard none).toLeaf
                  = .ok (Json.obj [("wildcard", Json.obj [(f, v.toJson)])])))
      ∧ (∀ (f s : String) (t : QueryType) (name : String),
          t ∈ [Match, Term, Terms, Range, Exists] → QueryType.String t = .ok name →
          leafQuery.MarshalJSON (QueryItem.mk f (.str s) t none).toLeaf
            = .ok (Json.obj [(name, Json.obj [(f, Json.str s)])]))
      ∧ goToLower "FOO*Bar" = "foo*bar"
      ∧ goToLower "\u00c9COLE*\u212a" = "\u00e9cole*k" := by
  refine ⟨MarshalJSON_wildcard_str, ?_, ?_, by decide, by decide⟩
  · intro f v hv
    have h1 := MarshalJSON_wildcard_other f v hv
    refine ⟨h1, fun j hj => ?_, fun hd => ?_⟩
    · rw [h1, hj]
      rfl
    · rw [h1, marshalValue_data v hd]
      rfl
  · intro f s t name ht hst
    rw [MarshalJSON_default_shape f (.str s) t name ht hst, marshalValue_str]
    rfl

/-- C11 (amended) on a number under wildcard and on the value `FOO*Bar` under term. -/
theorem c11_wildcard_value_lowercased_witness :
    leafQuery.MarshalJSON (QueryItem.mk "name" (.int 7) Wildcard none).toLeaf
        = .ok (Json.obj [("wildcard", Json.obj [("name", Json.num 7)])])
      ∧ leafQuery.MarshalJSON (QueryItem.mk "name" (.str "FOO*Bar") Term none).toLeaf
        = .ok (Json.obj [("term", Json.obj [("name", Json.str "FOO*Bar")])]) :=
  ⟨(c11_wildcard_value_lowercased.2.1 "name" (.int 7) (fun s h => by cases h)).2.2 rfl,
    c11_wildcard_value_lowercased.2.2.1 "name" "FOO*Bar" Term "term" (by decide) (by decide)⟩

/-- C12: in every successfully serialized document the top-level keys are `query` followed by
`from` iff From is not 0, `size` iff Size is not 0, `sort` iff Sort is non-empty,
`search_after` iff SearchAfter is non-empty and `track_total_hits` iff TrackTotalHits is
true, in this order, each holding the model's value (a nil map inside Sort is written
`null`); the bytes are the rendering of that object. -/
theorem c12_top_level_omitempty (d : QueryDoc) (j : Json)
    (h : QueryDoc.MarshalJSON d = .ok j) :
    j.keys = topLevelKeys d
      ∧ (∃ q, marshalQueryWrap (getWrappedQuery d) = .ok q ∧ j.field "query" = some q)
      ∧ j.field "from" = (if d.From = 0 then none else some (Json.num d.From))
      ∧ j.field "size" = (if d.Size = 0 then none else some (Json.num d.Size))
      ∧ j.field "sort" = (if d.«Sort».isEmpty then none else some (sortJson d))
      ∧ j.field "search_after"
          = (if d.SearchAfter.isEmpty then none
             else some (Json.arr (d.SearchAfter.map Json.str)))
      ∧ j.field "track_total_hits"
          = (if d.TrackTotalHits then some (Json.bool true) else none)
      ∧ jsonMarshal d = .ok j.render := by
  obtain ⟨q, hq, rfl⟩ := MarshalJSON_ok d j h
  have hb : jsonMarshal d = .ok (Json.render (Json.obj ([("query", q)]
        ++ fieldIf (d.From != 0) "from" (.num d.From)
        ++ fieldIf (d.Size != 0) "size" (.num d.Size)
        ++ fieldIf (!d.«Sort».isEmpty) "sort" (sortJson d)
        ++ fieldIf (!d.SearchAfter.isEmpty) "search_after" (.arr (d.SearchAfter.map Json.str))
        ++ fieldIf d.TrackTotalHits "track_total_hits" (.bool true)))) :=
    jsonMarshal_of_body d q hq
  refine ⟨?_, ⟨q, hq, ?_⟩, ?_, ?_, ?_, ?_, ?_, hb⟩ <;>
  · obtain ⟨ix, fr, sz, so, sa, a, n, o, f, ps, np, nest, m, tth⟩ := d
    simp only [QueryDoc.From, QueryDoc.Size, QueryDoc.«Sort», QueryDoc.SearchAfter,
      QueryDoc.TrackTotalHits, topLevelKeys, Json.keys, Json.field, sortJson]
    by_cases hfr : fr = 0 <;> by_cases hsz : sz = 0 <;> cases so <;> cases sa <;> cases tth <;>
      simp [fieldIf, List.lookup, hfr, hsz]

/-- C12 on the document of `TestAndQuery`: the keys are `query` and `sort`. -/
theorem c12_top_level_omitempty_witness :
    Json.keys (.obj [("query", .obj [("bool", .obj [("must", .arr [.obj [("match",
          .obj [("some_index_id", .str "some-long-key-id-value")])]])])]),
          ("sort", .arr [.obj [("id", .str "asc")]])]) = topLevelKeys andQueryDoc :=
  (c12_top_level_omitempty andQueryDoc _ andQueryDoc_tree).1

set_option maxRecDepth 20000 in
/-- C13: `getWrappedQuery` copies `MatchAll` into the body; in every serialized body a present
mapping (the empty one included) is written under `match_all` as the last member, after the
`bool` and `nested` members when those are present, whatever they are; an absent mapping
gives no `match_all` key. -/
theorem c13_match_all_attached (d : QueryDoc) :
    (getWrappedQuery d).MatchAll = d.MatchAll
      ∧ marshalValue (.map []) = .ok (Json.obj [])
      ∧ (∀ j, marshalQueryWrap (getWrappedQuery d) = .ok j →
          (d.MatchAll = none → j.field "match_all" = none)
            ∧ ∀ mo, d.MatchAll = some mo →
                ∃ jm fb fn, marshalValue (.map mo) = .ok jm
                  ∧ j = Json.obj (fb ++ fn ++ [("match_all", jm)])
                  ∧ j.field "match_all" = some jm
                  ∧ (fb = [] ∨ ∃ b, fb = [("bool", b)])
                  ∧ (fn = [] ∨ ∃ n, fn = [("nested", n)])
                  ∧ (fb = [] ↔ (d.And = [] ∧ d.Not = [] ∧ d.Or = [] ∧ d.Filter = []))
                  ∧ (fn = [] ↔ d.NestDoc = none))
      ∧ jsonMarshal matchAllDoc
          = .ok ("\x7b\"query\":\x7b\"bool\":\x7b\"must\":[\x7b\"term\":\x7b\"user.country\":1001\x7d\x7d]\x7d,"
              ++ "\"nested\":\x7b\"path\":\"hello\",\"query\":\x7b\"bool\":\x7b\"must\":["
              ++ "\x7b\"term\":\x7b\"name\":\"name1\"\x7d\x7d]\x7d\x7d\x7d,\"match_all\":\x7b\x7d\x7d\x7d") := by
  refine ⟨by rw [getWrappedQuery_eq, queryWrap.MatchAll], ?_, ?_, ?_⟩
  · rw [marshalValue, marshalEntries]; rfl
  · intro j hj
    obtain ⟨jsA, jsN, jsO, jsF, fn, fm, hA, hN, hO, hF, hn, hm, rfl⟩ := body_shape d j hj
    have hb' := boolFields_cases jsA jsN jsO jsF
    have hn' : fn = [] ∨ ∃ v, fn = [("nested", v)] := by
      cases hnd : d.NestDoc with
      | none => exact Or.inl (hn.1 hnd)
      | some x =>
        obtain ⟨jq, _, h⟩ := hn.2 x hnd
        exact Or.inr ⟨_, h⟩
    have hfn : fn = [] ↔ d.NestDoc = none := by
      cases hnd : d.NestDoc with
      | none => simp [hn.1 hnd]
      | some x =>
        obtain ⟨jq, _, h⟩ := hn.2 x hnd
        simp [h]
    have eA := isEmpty_of_marshalLeaves _ _ hA
    have eN := isEmpty_of_marshalLeaves _ _ hN
    have eO := isEmpty_of_marshalLeaves _ _ hO
    have eF := isEmpty_of_marshalLeaves _ _ hF
    have hfb : boolFields jsA jsN jsO jsF = []
        ↔ (d.And = [] ∧ d.Not = [] ∧ d.Or = [] ∧ d.Filter = []) := by
      unfold boolFields
      rw [eA, eN, eO, eF]
      obtain ⟨ix, fr, sz, so, sa, a, n, o, f, ps, np, nest, m, tth⟩ := d
      cases a <;> cases n <;> cases o <;> cases f <;> simp
    rw [body_field_match_all _ _ _ hb' hn']
    constructor
    · intro hnone
      rw [hm.1 hnone]
      rfl
    · intro mo hmo
      obtain ⟨jm, hjm, rfl⟩ := hm.2 mo hmo
      exact ⟨jm, _, fn, hjm, rfl, by simp [List.lookup], hb', hn', hfb, hfn⟩
  · rw [jsonMarshal_of_body _ _ matchAllDoc_body]
    decide

/-- C13 on a document with a clause, a nested document and the empty mapping. -/
theorem c13_match_all_attached_witness :
    ∃ jm fb fn, marshalValue (.map []) = .ok jm
      ∧ fb ≠ [] ∧ fn ≠ []
      ∧ Json.obj [
          ("bool", .obj [("must", .arr [.obj [("term", .obj [("user.country", .num 1001)])]])]),
          ("nested", .obj [("path", .str "hello"),
            ("query", .obj [("bool", .obj [("must", .arr [
              .obj [("term", .obj [("name", .str "name1")])]])])])]),
          ("match_all", .obj [])]
        = Json.obj (fb ++ fn ++ [("match_all", jm)]) := by
  obtain ⟨jm, fb, fn, h1, h2, _, _, _, h6, h7⟩ :=
    ((c13_match_all_attached matchAllDoc).2.2.1 _ matchAllDoc_body).2 [] rfl
  refine ⟨jm, fb, fn, h1, ?_, ?_, h2⟩
  · intro hfb
    have := h6.1 hfb
    simp [matchAllDoc] at this
  · intro hfn
    have := h7.1 hfn
    simp [matchAllDoc] at this

/-- C14: for a non-empty sequence of items, `WrapQueryItems` returns an item of type `Nested`
that serializes inline to the one-key object `bool` holding, under the key chosen from the
item type, the array of the items serialized in order, with no `nested` wrapper and no path;
the key is chosen by the item type lowercased with `strings.ToLower`; the call of
`TestNestedQuery` gives the two term clauses under must. -/
theorem c14_wrap_query_items_inline :
    (∀ (itemType : String) (items : List QueryItem), items ≠ [] →
        (WrapQueryItems itemType items).«Type» = Nested
          ∧ leafQuery.MarshalJSON (WrapQueryItems itemType items).toLeaf
              = (marshalLeaves (items.map QueryItem.toLeaf)).map fun js =>
                  Json.obj [("bool", Json.obj [(wrapKey itemType, Json.arr js)])])
      ∧ wrapKey "and" = "must" ∧ wrapKey "OR" = "should" ∧ wrapKey "Not" = "must_not"
      ∧ wrapKey "FILTER" = "filter" ∧ wrapKey "F\u0130LTER" = "filter"
      ∧ wrapKey "anything" = "must"
      ∧ leafQuery.MarshalJSON
          (WrapQueryItems "and"
            [.mk "date.year" (.int 2001) Term none,
             .mk "date.month" (.int 1002) Term none]).toLeaf
          = .ok (Json.obj [("bool", Json.obj [("must", Json.arr [
              Json.obj [("term", Json.obj [("date.year", Json.num 2001)])],
              Json.obj [("term", Json.obj [("date.month", Json.num 1002)])]])])]) := by
  have main : ∀ (itemType : String) (items : List QueryItem), items ≠ [] →
      (WrapQueryItems itemType items).«Type» = Nested
        ∧ leafQuery.MarshalJSON (WrapQueryItems itemType items).toLeaf
            = (marshalLeaves (items.map QueryItem.toLeaf)).map fun js =>
                Json.obj [("bool", Json.obj [(wrapKey itemType, Json.arr js)])] := by
    intro itemType items hne
    obtain ⟨hmust, hnot, hor, hfilter⟩ := inline_bool_body items hne
    refine ⟨rfl, ?_⟩
    unfold WrapQueryItems wrapKey
    by_cases h1 : goToLower itemType = "or"
    · rw [if_pos h1, if_pos h1]
      exact (MarshalJSON_nested_value _ _ _).trans hor
    · rw [if_neg h1, if_neg h1]
      by_cases h2 : goToLower itemType = "not"
      · rw [if_pos h2, if_pos h2]
        exact (MarshalJSON_nested_value _ _ _).trans hnot
      · rw [if_neg h2, if_neg h2]
        by_cases h3 : goToLower itemType = "filter"
        · rw [if_pos h3, if_pos h3]
          exact (MarshalJSON_nested_value _ _ _).trans hfilter
        · rw [if_neg h3, if_neg h3]
          exact (MarshalJSON_nested_value _ _ _).trans hmust
  refine ⟨main, by decide, by decide, by decide, by decide, by decide, by decide, ?_⟩
  rw [(main "and" _ (by simp)).2]
  have hk : wrapKey "and" = "must" := by decide
  rw [hk]
  simp [marshalLeaves, leafQuery.MarshalJSON, leafQuery.handleMarshalType, marshalValue,
    marshalEntries, lowerWildcard, Term, Nested, Wildcard, QueryString, QueryType.String, convs,
    indexString, Outcome.bind, Outcome.map, sortEntries, insertEntry, sequenceEntries,
    QueryItem.toLeaf]

/-- C14 on the call of `TestNestedQuery`. -/
theorem c14_wrap_query_items_inline_witness :
    (WrapQueryItems "and"
        [.mk "date.year" (.int 2001) Term none, .mk "date.month" (.int 1002) Term none]).«Type»
      = Nested :=
  (c14_wrap_query_items_inline.1 "and"
    [.mk "date.year" (.int 2001) Term none, .mk "date.month" (.int 1002) Term none]
    (by simp)).1

set_option maxRecDepth 20000 in
/-- C15: when every document of the sequence serializes, `MultiSearchDoc` returns no error
and exactly, for each document in input order, the header line of its index and the line of
its body, each ended by a newline, with nothing before, between or after; the empty sequence
gives the empty string, and the two documents of `TestMultiSearchDoc` give the four expected
lines. -/
theorem c15_multi_search_concatenates :
    (∀ (queries : List QueryDoc) (bodies : List String),
        List.Forall₂ (fun q b => jsonMarshal q = .ok b) queries bodies →
        MultiSearchDoc queries
          = .returned (batchLines ((queries.map QueryDoc.Index).zip bodies)) none)
      ∧ MultiSearchDoc [] = .returned "" none
      ∧ MultiSearchDoc [multiDoc1, multiDoc2]
          = .returned
              ("\x7b\"index\":\"index1\"\x7d\n"
                ++ "\x7b\"query\":\x7b\"bool\":\x7b\"must\":[\x7b\"query_string\":\x7b"
                ++ "\"analyze_wildcard\":true,\"fields\":[\"user.id\"],"
                ++ "\"query\":\"kimchy\\\\!\"\x7d\x7d]\x7d\x7d\x7d\n"
                ++ "\x7b\"index\":\"index2\"\x7d\n"
                ++ "\x7b\"query\":\x7b\"bool\":\x7b\"must\":[\x7b\"match\":\x7b\"some_index_id\":"
                ++ "\"some-long-key-id-value\"\x7d\x7d]\x7d\x7d\x7d\n") none := by
  have main : ∀ (queries : List QueryDoc) (bodies : List String),
      List.Forall₂ (fun q b => jsonMarshal q = .ok b) queries bodies →
      MultiSearchDoc queries
        = .returned (batchLines ((queries.map QueryDoc.Index).zip bodies)) none := by
    intro queries bodies h
    unfold MultiSearchDoc
    rw [multiSearchLoop_ok queries bodies "" h, String.empty_append]
  refine ⟨main, rfl, ?_⟩
  rw [main [multiDoc1, multiDoc2] _
    (List.Forall₂.cons multiDoc1_bytes (List.Forall₂.cons multiDoc2_bytes List.Forall₂.nil))]
  decide

/-- C15 on the two documents of `TestMultiSearchDoc`. -/
theorem c15_multi_search_concatenates_witness :
    MultiSearchDoc [multiDoc1, multiDoc2]
      = .returned (batchLines (([multiDoc1, multiDoc2].map QueryDoc.Index).zip
          ["\x7b\"query\":\x7b\"bool\":\x7b\"must\":[\x7b\"query_string\":\x7b"
            ++ "\"analyze_wildcard\":true,\"fields\":[\"user.id\"],"
            ++ "\"query\":\"kimchy\\\\!\"\x7d\x7d]\x7d\x7d\x7d",
           "\x7b\"query\":\x7b\"bool\":\x7b\"must\":[\x7b\"match\":\x7b\"some_index_id\":"
            ++ "\"some-long-key-id-value\"\x7d\x7d]\x7d\x7d\x7d"])) none :=
  c15_multi_search_concatenates.1 [multiDoc1, multiDoc2] _
    (List.Forall₂.cons multiDoc1_bytes (List.Forall₂.cons multiDoc2_bytes List.Forall₂.nil))

/-- C16 (as stated) fails twice.  The only clause of the first document has the valid type
`Nested` and no `query_string` clause occurs, yet serialization panics at the type assertion
`q.Value.(QueryDoc)` because the clause holds no document.  The only clause of the second
document is a `term` clause with the value `math.NaN()`, and serialization returns the error
of `json.Marshal` for that value. -/
theorem c16_counterexample :
    (nestedWithoutValueDoc.wellTyped false = true
        ∧ jsonMarshal nestedWithoutValueDoc = .panic (.interfaceConversion "QueryDoc"))
      ∧ (nanTermDoc.wellTyped false = true
        ∧ jsonMarshal nanTermDoc = .jsonError (.unsupportedValue "NaN")) :=
  ⟨⟨by decide, nestedWithoutValueDoc_panics⟩, ⟨by decide, nanTermDoc_error⟩⟩

/-- C16 (amended): a document tree in which every item has one of the eight type tags, every
`QueryString` item holds a text, every `Nested` item holds a `QueryDoc` and every stored
value is one that `json.Marshal` encodes serializes: the call returns bytes, no error, and
does not panic. -/
theorem c16_well_typed_tree_serializes (d : QueryDoc) (h : d.wellTyped true = true) :
    ∃ bytes, jsonMarshal d = .ok bytes := by
  obtain ⟨j, hj⟩ := (Outcome.isOk_iff _).1 (wellTyped_doc_isOk d h)
  exact ⟨_, jsonMarshal_of_body d j hj⟩

/-- C16 (amended) on the first document of `TestNestedQuery`. -/
theorem c16_well_typed_tree_serializes_witness :
    ∃ bytes, jsonMarshal nestedQueryDoc = .ok bytes :=
  c16_well_typed_tree_serializes nestedQueryDoc (by decide)

/-- C17: two documents that differ at most in their own Index, NestPath and PageSize
serialize to the same result. -/
theorem c17_index_path_pagesize_unread (ix ix' : String) (fr sz : Int)
    (so : List (Option (List (String × String)))) (sa : List String)
    (a n o f : List QueryItem) (ps ps' : Int) (np np' : String) (nd : Option QueryDoc)
    (m : Option (List (String × GoValue))) (tth : Bool) :
    jsonMarshal (.mk ix fr sz so sa a n o f ps np nd m tth)
        = jsonMarshal (.mk ix' fr sz so sa a n o f ps' np' nd m tth)
      ∧ QueryDoc.MarshalJSON (.mk ix fr sz so sa a n o f ps np nd m tth)
        = QueryDoc.MarshalJSON (.mk ix' fr sz so sa a n o f ps' np' nd m tth)
      ∧ getWrappedQuery (.mk ix fr sz so sa a n o f ps np nd m tth)
        = getWrappedQuery (.mk ix' fr sz so sa a n o f ps' np' nd m tth) := by
  have hg : getWrappedQuery (.mk ix fr sz so sa a n o f ps np nd m tth)
      = getWrappedQuery (.mk ix' fr sz so sa a n o f ps' np' nd m tth) := by
    rw [getWrappedQuery_eq, getWrappedQuery_eq]
    rfl
  have hm : QueryDoc.MarshalJSON (.mk ix fr sz so sa a n o f ps np nd m tth)
      = QueryDoc.MarshalJSON (.mk ix' fr sz so sa a n o f ps' np' nd m tth) := by
    rw [QueryDoc.MarshalJSON, QueryDoc.MarshalJSON, hg]
    rfl
  exact ⟨by unfold jsonMarshal; rw [hm], hm, hg⟩

/-- C18: a document with the four lists empty, no match-all mapping and no nested document
resolves to the empty body, serialized as the empty object under the `query` key, which is
always written; with zero pagination, no sort, no search-after and trackTotalHits false the
bytes are exactly the object with the single key `query` holding the empty object. -/
theorem c18_empty_body (ix : String) (fr sz : Int)
    (so : List (Option (List (String × String)))) (sa : List String) (ps : Int) (np : String)
    (tth : Bool) :
    getWrappedQuery (.mk ix fr sz so sa [] [] [] [] ps np none none tth)
        = queryWrap.mk none none none
      ∧ marshalQueryWrap (getWrappedQuery (.mk ix fr sz so sa [] [] [] [] ps np none none tth))
        = .ok (Json.obj [])
      ∧ (∃ rest, QueryDoc.MarshalJSON (.mk ix fr sz so sa [] [] [] [] ps np none none tth)
          = .ok (Json.obj (("query", Json.obj []) :: rest)))
      ∧ jsonMarshal (.mk ix 0 0 [] [] [] [] [] [] ps np none none false)
        = .ok "\x7b\"query\":\x7b\x7d\x7d" := by
  have hg : getWrappedQuery (.mk ix fr sz so sa [] [] [] [] ps np none none tth)
      = queryWrap.mk none none none := by
    rw [getWrappedQuery_eq]
    rfl
  have hg0 : getWrappedQuery (.mk ix 0 0 [] [] [] [] [] [] ps np none none false)
      = queryWrap.mk none none none := by
    rw [getWrappedQuery_eq]
    rfl
  have hb : marshalQueryWrap (queryWrap.mk none none none) = .ok (Json.obj []) := by
    rw [marshalQueryWrap_eq, marshalOptBool, marshalOptNested]
    rfl
  refine ⟨hg, by rw [hg, hb], ?_, ?_⟩
  · rw [QueryDoc.MarshalJSON, hg, hb]
    exact ⟨_, rfl⟩
  · rw [jsonMarshal_of_body _ _ (by rw [hg0, hb])]
    simp only [QueryDoc.From, QueryDoc.Size, QueryDoc.«Sort», QueryDoc.SearchAfter,
      QueryDoc.TrackTotalHits]
    decide

/-- C19: `getWrappedQuery` is defined on every document tree, and along every chain d0, d1,
..., dn in which each document is the `NestDoc` of the one before, the wrappers met from the
body of d0 are, in order, the wrapper of d1, ..., the wrapper of dn, the wrapper of di
carrying the path of di and the resolved body of di, followed by those below dn (none when dn
has no `NestDoc`, so exactly n); chains of every length exist. -/
theorem c19_nested_chain_unbounded :
    (∀ (d0 : QueryDoc) (rest : List QueryDoc),
        List.Chain (fun a b => a.NestDoc = some b) d0 rest →
        (getWrappedQuery d0).nestedChain
            = rest.map (fun d => nestedWrap.mk d.NestPath (getWrappedQuery d))
              ++ (getWrappedQuery (rest.getLastD d0)).nestedChain
          ∧ ((rest.getLastD d0).NestDoc = none →
              (getWrappedQuery d0).nestedChain
                  = rest.map (fun d => nestedWrap.mk d.NestPath (getWrappedQuery d))
                ∧ (getWrappedQuery d0).nestedChain.length = rest.length))
      ∧ (∀ (path : String) (paths : List String),
          (getWrappedQuery (chainDoc path paths)).nestedChain.map nestedWrap.Path = paths
            ∧ (getWrappedQuery (chainDoc path paths)).nestedChain.length = paths.length) := by
  constructor
  · intro d0 rest h
    have h1 := nestedChain_chain rest d0 h
    refine ⟨h1, fun hlast => ?_⟩
    rw [nestedChain_of_none _ hlast, List.append_nil] at h1
    exact ⟨h1, by rw [h1, List.length_map]⟩
  · intro path paths
    have h := nestedChain_chainDoc paths path
    exact ⟨h, by rw [← List.length_map (getWrappedQuery (chainDoc path paths)).nestedChain
      nestedWrap.Path, h]⟩

/-- C19 on the first document of `TestNestedQuery`: one wrapper, with path `hello`. -/
theorem c19_nested_chain_unbounded_witness :
    (getWrappedQuery nestedQueryDoc).nestedChain.length = 1 :=
  ((c19_nested_chain_unbounded.1 nestedQueryDoc
    [.mk "" 0 0 [] []
      [.mk "name" (.str "name1") Term none, .mk "password" (.str "password1") Term none]
      [] [] [] 0 "hello" none none false]
    (List.Chain.cons rfl List.Chain.nil)).2 rfl).2

/-- C20 (as stated) fails: the second document of the batch does not serialize, because its
`Nested` clause holds no document, yet `MultiSearchDoc` returns neither the empty string nor
an error: the panic of that document ends the call, although the third document would have
returned a `QueryTypeErr`. -/
theorem c20_counterexample :
    (jsonMarshal nestedWithoutValueDoc).isOk = false
      ∧ MultiSearchDoc [multiDoc2, nestedWithoutValueDoc, bogusQueryDoc]
        = .panic (.interfaceConversion "QueryDoc") := by
  refine ⟨by rw [nestedWithoutValueDoc_panics]; rfl, ?_⟩
  exact multiSearchLoop_first_panic [multiDoc2] nestedWithoutValueDoc [bogusQueryDoc] _ ""
    (by
      intro x hx
      rw [List.mem_singleton.1 hx, multiDoc2_bytes]
      rfl)
    nestedWithoutValueDoc_panics

/-- C20 (amended): a document that does not serialize either returns an error or panics.
When every document before it serializes and it returns an error, `MultiSearchDoc` returns
the empty string together with that error: the lines built for the documents before it are
discarded.  When it panics, `MultiSearchDoc` panics in the same way. -/
theorem c20_multi_search_first_error (pre post : List QueryDoc) (q : QueryDoc)
    (hpre : ∀ x ∈ pre, (jsonMarshal x).isOk = true) :
    (∀ err, (jsonMarshal q).returnedError = some err →
        MultiSearchDoc (pre ++ q :: post) = .returned "" (some err))
      ∧ (∀ p, jsonMarshal q = .panic p → MultiSearchDoc (pre ++ q :: post) = .panic p)
      ∧ ((jsonMarshal q).isOk = false →
          (∃ err, (jsonMarshal q).returnedError = some err) ∨ ∃ p, jsonMarshal q = .panic p) :=
  ⟨fun err hq => multiSearchLoop_first_failure pre q post err "" hpre hq,
    fun p hq => multiSearchLoop_first_panic pre q post p "" hpre hq,
    Outcome.not_isOk_cases _⟩

/-- C20 (amended) on a batch whose second document has an unsupported type. -/
theorem c20_multi_search_first_error_witness :
    MultiSearchDoc [multiDoc2, bogusQueryDoc, multiDoc1]
      = .returned "" (some (.queryType { typeVal := 100001 })) :=
  (c20_multi_search_first_error [multiDoc2] [multiDoc1] bogusQueryDoc
    (by
      intro x hx
      rw [List.mem_singleton.1 hx, multiDoc2_bytes]
      rfl)).1 (.queryType { typeVal := 100001 }) (by rw [bogusQueryDoc_error]; rfl)

end Esquerydsl
